import Mathlib

/-!
# Valset relaying decision routine

A shallow embedding of `peggyRelayer.RelayValsets`
(`orchestrator/relayer/valset_relaying.go`) and the properties of it that the
design document states.

The Go method talks to five collaborators (the Cosmos query client, the
relayer's own `FindLatestValset`, the Peggy contract binding, the Tendermint
client and the `time` package).  Each collaborator call is a field of the
record `peggyRelayer` below: a value of the record fixes what every call
answers during one invocation.  The method itself becomes a function from that
record to a `Run`: the ordered list of collaborator calls it made, each marked
with whether it failed, and the Go `error` it returned (`none` is `nil`).

Calls to `metrics.*` and `log.*` only observe; they are not part of the model.
-/

namespace Peggo

/-! ## Data model -/

/-- Go `error` values.  `Wrap` and `Wrapf` are the two annotating constructors
of `github.com/pkg/errors` the method uses; `Wrapf` keeps its format string and
its single `%d` argument apart instead of rendering them. -/
inductive Error where
  | base (msg : String)
  | Wrap (cause : Error) (message : String)
  | Wrapf (cause : Error) (format : String) (arg : Nat)
  deriving DecidableEq, Repr

/-- One member of a validator set (`types.BridgeValidator`). -/
structure BridgeValidator where
  Power : Nat
  EthereumAddress : String
  deriving DecidableEq, Repr

/-- Validator set snapshot (`types.Valset`).  `Nonce` and `Height` are `uint64`
in Go; they are compared as numbers, and `Height` is converted with `int64`
below. -/
structure Valset where
  Nonce : Nat
  Members : List BridgeValidator
  Height : Nat
  deriving DecidableEq, Repr

/-- One validator's signature over a valset (`types.MsgValsetConfirm`). -/
structure MsgValsetConfirm where
  Nonce : Nat
  Orchestrator : String
  EthAddress : String
  Signature : String
  deriving DecidableEq, Repr

/-- Transaction hash returned by a successful submission (`common.Hash`). -/
abbrev TxHash := Nat

/-- Instant of `time.Time`, as nanoseconds since the Unix epoch.  The block time
carries no monotonic reading, so `Sub` below compares wall-clock instants; the
far ends of Go's representable range (hundreds of billions of years away) are
not modelled. -/
abbrev Time := Int

/-- Go `time.Duration`: a signed 64-bit count of nanoseconds. -/
abbrev Duration := Int

/-- Smallest `time.Duration`, `-1 << 63`. -/
def minDuration : Duration := -(2 ^ 63)

/-- Largest `time.Duration`, `1<<63 - 1`. -/
def maxDuration : Duration := 2 ^ 63 - 1

/-- Go `Time.Add`. -/
def Time.Add (t : Time) (d : Duration) : Time := t + d

/-- Go `Time.Sub`: the difference `t - u`, replaced by the minimum or maximum
duration when it does not fit a `Duration`. -/
def Time.Sub (t u : Time) : Duration :=
  if t - u < minDuration then minDuration
  else if maxDuration < t - u then maxDuration
  else t - u

/-- Go conversion `int64(x)` of a `uint64`: the same 64 bits read as a signed
number. -/
def int64 (x : Nat) : Int :=
  if x % 2 ^ 64 < 2 ^ 63 then ((x % 2 ^ 64 : Nat) : Int)
  else ((x % 2 ^ 64 : Nat) : Int) - 2 ^ 64

/-- Go `(*big.Int).Uint64` on a non-negative big integer: the value itself when
it fits 64 bits; beyond that the library documents the result as undefined and
returns the low 64 bits of the magnitude. -/
def Uint64 (x : Nat) : Nat := x % 2 ^ 64

/-- The receiver `s` of the method together with the ambient `time` package:
what each collaborator call answers during one invocation.

* `LatestValsets`: `s.cosmosQueryClient.LatestValsets(ctx)`
* `AllValsetConfirms n`: `s.cosmosQueryClient.AllValsetConfirms(ctx, n)`
* `FindLatestValset`: `s.FindLatestValset(ctx)`
* `GetValsetNonce`: `s.peggyContract.GetValsetNonce(ctx, s.peggyContract.FromAddress())`,
  a big integer decoded from the contract's unsigned 256-bit nonce
* `GetBlock h`: the `Block.Time` of `s.tmClient.GetBlock(ctx, h)`
* `SendEthValsetUpdate`: `s.peggyContract.SendEthValsetUpdate(ctx, _, _, _)`
* `relayValsetOffsetDur`: the stored configuration string
* `ParseDuration`: `time.ParseDuration`
* `Now`: `time.Now()`. -/
structure peggyRelayer where
  LatestValsets : Except Error (List Valset)
  AllValsetConfirms : Nat → Except Error (List MsgValsetConfirm)
  FindLatestValset : Except Error Valset
  GetValsetNonce : Except Error Nat
  GetBlock : Int → Except Error Time
  SendEthValsetUpdate : Valset → Valset → List MsgValsetConfirm → Except Error TxHash
  relayValsetOffsetDur : String
  ParseDuration : String → Except Error Duration
  Now : Time

/-- A collaborator call together with its arguments. -/
inductive Call where
  | LatestValsets
  | AllValsetConfirms (nonce : Nat)
  | FindLatestValset
  | GetValsetNonce
  | GetBlock (height : Int)
  | ParseDuration (s : String)
  | Now
  | SendEthValsetUpdate (oldValset newValset : Valset) (confirms : List MsgValsetConfirm)
  deriving DecidableEq, Repr

/-- One entry of the call log: the call and whether it returned an error. -/
structure Event where
  call : Call
  failed : Bool
  deriving DecidableEq, Repr

/-- What one invocation did: the calls in the order made, and the returned Go
`error` (`none` for `nil`). -/
structure Run where
  trace : List Event
  err : Option Error
  deriving DecidableEq, Repr

/-- The arguments of a submission call, `none` for any other call. -/
def Event.submission (e : Event) : Option (Valset × Valset × List MsgValsetConfirm) :=
  match e.call with
  | .SendEthValsetUpdate o n c => some (o, n, c)
  | _ => none

/-- The nonce of a confirmation fetch, `none` for any other call. -/
def Event.confirmFetch (e : Event) : Option Nat :=
  match e.call with
  | .AllValsetConfirms n => some n
  | _ => none

/-- All submissions of a run, in order, with their arguments. -/
def Run.submissions (r : Run) : List (Valset × Valset × List MsgValsetConfirm) :=
  r.trace.filterMap Event.submission

/-! ## The method -/

/-- The loop of lines 30-45: scan the valsets in the order given, fetching the
confirmations of each; stop at the first fetch error or at the first valset with
a non-empty confirmation list.  The result pairs the calls made with either the
wrapped fetch error or the values of `latestCosmosConfirmed` and
`latestCosmosSigs` after the loop (`none` while `latestCosmosConfirmed` is
`nil`). -/
def findLatestConfirmed (s : peggyRelayer) :
    List Valset → List Event × Except Error (Option (Valset × List MsgValsetConfirm))
  | [] => ([], .ok none)
  | set :: rest =>
    match s.AllValsetConfirms set.Nonce with
    | .error err =>
      ([⟨.AllValsetConfirms set.Nonce, true⟩],
        .error (.Wrapf err "failed to get valset confirms at nonce %d" set.Nonce))
    | .ok sigs =>
      if sigs.length = 0 then
        (⟨.AllValsetConfirms set.Nonce, false⟩ :: (findLatestConfirmed s rest).1,
          (findLatestConfirmed s rest).2)
      else
        ([⟨.AllValsetConfirms set.Nonce, false⟩], .ok (some (set, sigs)))

/-- Lines 72-102: the delay gate and the submission, entered once both nonce
comparisons have passed. -/
def delayGateAndSend (s : peggyRelayer) (currentEthValset latestCosmosConfirmed : Valset)
    (latestCosmosSigs : List MsgValsetConfirm) : Run :=
  match s.GetBlock (int64 latestCosmosConfirmed.Height) with
  | .error err => ⟨[⟨.GetBlock (int64 latestCosmosConfirmed.Height), true⟩], some err⟩
  | .ok valsetCreatedAt =>
    match s.ParseDuration s.relayValsetOffsetDur with
    | .error err =>
      ⟨[⟨.GetBlock (int64 latestCosmosConfirmed.Height), false⟩,
        ⟨.ParseDuration s.relayValsetOffsetDur, true⟩], some err⟩
    | .ok relayValsetOffsetDur =>
      if Time.Sub s.Now (Time.Add valsetCreatedAt relayValsetOffsetDur) ≤ 0 then
        ⟨[⟨.GetBlock (int64 latestCosmosConfirmed.Height), false⟩,
          ⟨.ParseDuration s.relayValsetOffsetDur, false⟩, ⟨.Now, false⟩], none⟩
      else
        match s.SendEthValsetUpdate currentEthValset latestCosmosConfirmed latestCosmosSigs with
        | .error err =>
          ⟨[⟨.GetBlock (int64 latestCosmosConfirmed.Height), false⟩,
            ⟨.ParseDuration s.relayValsetOffsetDur, false⟩, ⟨.Now, false⟩,
            ⟨.SendEthValsetUpdate currentEthValset latestCosmosConfirmed latestCosmosSigs, true⟩],
            some err⟩
        | .ok _ =>
          ⟨[⟨.GetBlock (int64 latestCosmosConfirmed.Height), false⟩,
            ⟨.ParseDuration s.relayValsetOffsetDur, false⟩, ⟨.Now, false⟩,
            ⟨.SendEthValsetUpdate currentEthValset latestCosmosConfirmed latestCosmosSigs, false⟩],
            none⟩

/-- Lines 52-107: everything after a confirmed valset has been found. -/
def relayConfirmed (s : peggyRelayer) (latestCosmosConfirmed : Valset)
    (latestCosmosSigs : List MsgValsetConfirm) : Run :=
  match s.FindLatestValset with
  | .error err =>
    ⟨[⟨.FindLatestValset, true⟩],
      some (.Wrap err "couldn't find latest confirmed valset on Ethereum")⟩
  | .ok currentEthValset =>
    if latestCosmosConfirmed.Nonce > currentEthValset.Nonce then
      match s.GetValsetNonce with
      | .error err =>
        ⟨[⟨.FindLatestValset, false⟩, ⟨.GetValsetNonce, true⟩],
          some (.Wrap err "failed to get latest Valset nonce")⟩
      | .ok latestEthereumValsetNonce =>
        if latestCosmosConfirmed.Nonce > Uint64 latestEthereumValsetNonce then
          ⟨⟨.FindLatestValset, false⟩ :: ⟨.GetValsetNonce, false⟩ ::
              (delayGateAndSend s currentEthValset latestCosmosConfirmed latestCosmosSigs).trace,
            (delayGateAndSend s currentEthValset latestCosmosConfirmed latestCosmosSigs).err⟩
        else
          ⟨[⟨.FindLatestValset, false⟩, ⟨.GetValsetNonce, false⟩], none⟩
    else
      ⟨[⟨.FindLatestValset, false⟩], none⟩

/-- The method `peggyRelayer.RelayValsets` (lines 16-108). -/
def RelayValsets (s : peggyRelayer) : Run :=
  match s.LatestValsets with
  | .error err =>
    ⟨[⟨.LatestValsets, true⟩], some (.Wrap err "failed to fetch latest valsets from cosmos")⟩
  | .ok latestValsets =>
    match (findLatestConfirmed s latestValsets).2 with
    | .error err =>
      ⟨⟨.LatestValsets, false⟩ :: (findLatestConfirmed s latestValsets).1, some err⟩
    | .ok none =>
      ⟨⟨.LatestValsets, false⟩ :: (findLatestConfirmed s latestValsets).1, none⟩
    | .ok (some (latestCosmosConfirmed, latestCosmosSigs)) =>
      ⟨⟨.LatestValsets, false⟩ :: (findLatestConfirmed s latestValsets).1 ++
          (relayConfirmed s latestCosmosConfirmed latestCosmosSigs).trace,
        (relayConfirmed s latestCosmosConfirmed latestCosmosSigs).err⟩

/-! ## Example invocations -/

/-- Valset with nonce 5, never confirmed. -/
def valset5 : Valset := ⟨5, [], 120⟩

/-- Valset with nonce 4, created at height 100. -/
def valset4 : Valset := ⟨4, [], 100⟩

/-- Valset with nonce 3, the one the target chain holds. -/
def valset3 : Valset := ⟨3, [], 80⟩

/-- The single confirmation of valset 4. -/
def confirm4 : MsgValsetConfirm := ⟨4, "inj1orchestrator", "0xval", "0xsig"⟩

/-- Timestamp `T` of block 100 in the examples, in nanoseconds. -/
def blockT : Time := 1700000000000000000

/-- One hour in nanoseconds. -/
def hour : Duration := 3600000000000

/-- The `time.ParseDuration` results the examples need. -/
def parseExample (str : String) : Except Error Duration :=
  if str = "1h" then .ok hour
  else if str = "0s" then .ok 0
  else .error (.base "time: invalid duration")

/-- The scenario of the design document, with the target chain's valset, the
live nonce, the stored offset and the clock left open: valsets 5 (unconfirmed)
and 4 (one confirmation, height 100) on the source chain, block 100 stamped
`blockT`. -/
def scenarioWith (target : Valset) (live : Nat) (offset : String) (now : Time) :
    peggyRelayer where
  LatestValsets := .ok [valset5, valset4]
  AllValsetConfirms := fun n => if n = 4 then .ok [confirm4] else .ok []
  FindLatestValset := .ok target
  GetValsetNonce := .ok live
  GetBlock := fun h => if h = 100 then .ok blockT else .error (.base "block not found")
  SendEthValsetUpdate := fun _ _ _ => .ok 51966
  relayValsetOffsetDur := offset
  ParseDuration := parseExample
  Now := now

/-- The scenario with target valset 3 and an offset of one hour. -/
def scenario (live : Nat) (now : Time) : peggyRelayer :=
  scenarioWith valset3 live "1h" now

/-- Thirty minutes in nanoseconds. -/
def halfHour : Duration := 1800000000000

/-- A confirmation of valset 5. -/
def confirm5 : MsgValsetConfirm := ⟨5, "inj1orchestrator", "0xval", "0xsig5"⟩

/-- The scenario with no confirmation for any valset. -/
def unconfirmedScenario : peggyRelayer :=
  { scenario 3 (blockT + 2 * hour) with AllValsetConfirms := fun _ => .ok [] }

/-- The scenario with the source chain answering oldest first and both valsets
confirmed. -/
def unsortedScenario : peggyRelayer :=
  { scenario 3 (blockT + 2 * hour) with
    LatestValsets := .ok [valset4, valset5]
    AllValsetConfirms := fun n =>
      if n = 4 then .ok [confirm4] else if n = 5 then .ok [confirm5] else .ok [] }

/-- The scenario with the Tendermint client failing every block query. -/
def blockFailScenario : peggyRelayer :=
  { scenario 3 (blockT + 2 * hour) with
    GetBlock := fun _ => .error (.base "rpc error: connection refused") }

/-- The scenario with newest-first listing and both valsets confirmed. -/
def bothConfirmedScenario : peggyRelayer :=
  { unsortedScenario with LatestValsets := .ok [valset5, valset4] }

/-- A failed call ends the log: whenever an entry of the log is marked failed,
no entry follows it. -/
def FailedLast (t : List Event) : Prop :=
  ∀ pre e post, t = pre ++ e :: post → e.failed = true → post = []

/-- The `time.ParseDuration` results of the examples, extended with a negative
offset, which Go parses like any other duration. -/
def parseSigned (str : String) : Except Error Duration :=
  if str = "-1h" then .ok (-hour) else parseExample str

/-- The scenario with the stored offset `-1h` and the clock thirty minutes
before the timestamp of block 100. -/
def negativeOffsetScenario : peggyRelayer :=
  { scenarioWith valset3 3 "-1h" (blockT - halfHour) with ParseDuration := parseSigned }

/-- The scenario with a stored offset that is no duration. -/
def malformedOffsetScenario : peggyRelayer :=
  scenarioWith valset3 3 "abc" (blockT + 2 * hour)

/-- The height of a block query, `none` for any other call. -/
def Event.blockFetch (e : Event) : Option Int :=
  match e.call with
  | .GetBlock h => some h
  | _ => none

/-- The scenario with the Tendermint client failing every block query and the
contract reporting a live nonce of `2 ^ 64 + 3`. -/
def racedBlockFailScenario : peggyRelayer :=
  { blockFailScenario with GetValsetNonce := .ok (2 ^ 64 + 3) }

/-- Valset with nonce 4 whose height field is `2 ^ 63`, the first `uint64` value
that is no `int64`. -/
def valsetHigh : Valset := ⟨4, [], 2 ^ 63⟩

/-- The scenario with `valsetHigh` as the only listed valset; the block client
answers at height `2 ^ 63` and nowhere else. -/
def highHeightScenario : peggyRelayer :=
  { scenario 3 (blockT + 2 * hour) with
    LatestValsets := .ok [valsetHigh]
    GetBlock := fun h =>
      if h = 2 ^ 63 then .ok blockT else .error (.base "height must be greater than 0") }

/-- The scenario with the confirmation fetch failing for nonce 5, the first
valset listed, while valset 4 behind it is confirmed. -/
def confirmFailScenario : peggyRelayer :=
  { scenario 3 (blockT + 2 * hour) with
    AllValsetConfirms := fun n =>
      if n = 5 then .error (.base "rpc timeout") else if n = 4 then .ok [confirm4] else .ok [] }

/-- A confirmation fetch that answers for nonce 4 and fails for every other
nonce. -/
def failExceptFour (n : Nat) : Except Error (List MsgValsetConfirm) :=
  if n = 4 then .ok [confirm4] else .error (.base "rpc timeout")

/-- The invocation gets as far as parsing the stored offset: the listing
succeeds, the scan selects a confirmed valset, both target reads succeed, the
confirmed nonce is above the target valset's nonce and above the 64-bit value of
the live nonce, and the block read succeeds. -/
def ReachesParse (s : peggyRelayer) : Prop :=
  ∃ vs latest sigs cur live createdAt, s.LatestValsets = .ok vs ∧
    (findLatestConfirmed s vs).2 = .ok (some (latest, sigs)) ∧
    s.FindLatestValset = .ok cur ∧ latest.Nonce > cur.Nonce ∧
    s.GetValsetNonce = .ok live ∧ latest.Nonce > Uint64 live ∧
    s.GetBlock (int64 latest.Height) = .ok createdAt

/-- The scenario with a stored offset that is no duration and the contract
reporting a live nonce of `2 ^ 64 + 3`. -/
def racedMalformedScenario : peggyRelayer :=
  scenarioWith valset3 (2 ^ 64 + 3) "abc" (blockT + 2 * hour)

/-! ## Basic facts about the model -/

/-- The saturating difference is non-positive exactly when the first instant is
not later than the second. -/
theorem Time.Sub_nonpos_iff (t u : Time) : Time.Sub t u ≤ 0 ↔ t ≤ u := by
  unfold Time.Sub minDuration maxDuration Duration Time
  split_ifs <;> omega

/-- Truncating a big integer to 64 bits never makes it larger. -/
theorem Uint64_le (x : Nat) : Uint64 x ≤ x := Nat.mod_le x _

/-- A big integer that fits 64 bits is unchanged by `Uint64`. -/
theorem Uint64_of_lt (x : Nat) (h : x < 2 ^ 64) : Uint64 x = x := Nat.mod_eq_of_lt h

/-- The scan only fetches confirmations: its calls contain no submission. -/
theorem findLatestConfirmed_submissions (s : peggyRelayer) (vs : List Valset) :
    (findLatestConfirmed s vs).1.filterMap Event.submission = [] := by
  induction vs with
  | nil => rfl
  | cons set rest ih =>
    unfold findLatestConfirmed
    split
    · rfl
    · split
      · simpa [Event.submission] using ih
      · rfl

/-- What the scan's result means in terms of the collaborator: the selected
valset is the first element of the list whose confirmation list is non-empty,
every element before it was fetched successfully and has none, and the
signatures kept are the ones fetched for its nonce. -/
theorem findLatestConfirmed_some_iff (s : peggyRelayer) (vs : List Valset) (set : Valset)
    (sigs : List MsgValsetConfirm) :
    (findLatestConfirmed s vs).2 = .ok (some (set, sigs)) ↔
      ∃ pre post, vs = pre ++ set :: post ∧
        (∀ v ∈ pre, s.AllValsetConfirms v.Nonce = .ok []) ∧
        s.AllValsetConfirms set.Nonce = .ok sigs ∧ sigs ≠ [] := by
  induction vs with
  | nil => simp [findLatestConfirmed]
  | cons hd rest ih =>
    unfold findLatestConfirmed
    cases hfetch : s.AllValsetConfirms hd.Nonce with
    | error err =>
      simp only [false_iff, not_exists, not_and, reduceCtorEq]
      intro pre post hsplit hpre hset
      cases pre with
      | nil =>
        simp only [List.nil_append, List.cons.injEq] at hsplit
        rw [hsplit.1, hset] at hfetch
        cases hfetch
      | cons p pre =>
        simp only [List.cons_append, List.cons.injEq] at hsplit
        have := hpre p (List.mem_cons_self _ _)
        rw [← hsplit.1, hfetch] at this
        cases this
    | ok fetched =>
      by_cases hlen : fetched.length = 0
      · have hnil : fetched = [] := List.length_eq_zero.mp hlen
        subst hnil
        simp only [List.length_nil, if_true]
        rw [ih]
        constructor
        · rintro ⟨pre, post, hsplit, hpre, hset, hne⟩
          refine ⟨hd :: pre, post, by simp [hsplit], ?_, hset, hne⟩
          intro v hv
          rcases List.mem_cons.mp hv with rfl | hv
          · exact hfetch
          · exact hpre v hv
        · rintro ⟨pre, post, hsplit, hpre, hset, hne⟩
          cases pre with
          | nil =>
            simp only [List.nil_append, List.cons.injEq] at hsplit
            rw [← hsplit.1, hfetch] at hset
            cases hset
            exact absurd rfl hne
          | cons p pre =>
            simp only [List.cons_append, List.cons.injEq] at hsplit
            exact ⟨pre, post, hsplit.2, fun v hv => hpre v (List.mem_cons_of_mem _ hv), hset, hne⟩
      · simp only [hlen, if_false]
        constructor
        · intro h
          simp only [Except.ok.injEq, Option.some.injEq, Prod.mk.injEq] at h
          obtain ⟨rfl, rfl⟩ := h
          exact ⟨[], rest, rfl, by simp, hfetch, fun h => hlen (by simp [h])⟩
        · rintro ⟨pre, post, hsplit, hpre, hset, hne⟩
          cases pre with
          | nil =>
            simp only [List.nil_append, List.cons.injEq] at hsplit
            rw [← hsplit.1, hfetch] at hset
            cases hset
            rw [hsplit.1]
          | cons p pre =>
            simp only [List.cons_append, List.cons.injEq] at hsplit
            have := hpre p (List.mem_cons_self _ _)
            rw [← hsplit.1, hfetch] at this
            cases this
            exact absurd rfl hlen

/-- With a confirmed valset found, the run is the listing, the scan and then
lines 52-107. -/
theorem RelayValsets_of_confirmed (s : peggyRelayer) (vs : List Valset) (latest : Valset)
    (sigs : List MsgValsetConfirm) (hList : s.LatestValsets = .ok vs)
    (hScan : (findLatestConfirmed s vs).2 = .ok (some (latest, sigs))) :
    RelayValsets s =
      ⟨⟨.LatestValsets, false⟩ :: (findLatestConfirmed s vs).1 ++
          (relayConfirmed s latest sigs).trace, (relayConfirmed s latest sigs).err⟩ := by
  unfold RelayValsets
  simp only [hList, hScan]

/-- The submissions of a run that found a confirmed valset are those of lines
52-107. -/
theorem submissions_of_confirmed (s : peggyRelayer) (vs : List Valset) (latest : Valset)
    (sigs : List MsgValsetConfirm) (hList : s.LatestValsets = .ok vs)
    (hScan : (findLatestConfirmed s vs).2 = .ok (some (latest, sigs))) :
    (RelayValsets s).submissions = (relayConfirmed s latest sigs).submissions := by
  rw [RelayValsets_of_confirmed s vs latest sigs hList hScan]
  simp [Run.submissions, List.filterMap_append, findLatestConfirmed_submissions,
    Event.submission]

/-- Once both nonce comparisons pass, lines 52-107 are the two target reads
followed by the delay gate and the submission. -/
theorem relayConfirmed_of_newer (s : peggyRelayer) (latest cur : Valset)
    (sigs : List MsgValsetConfirm) (live : Nat)
    (hCur : s.FindLatestValset = .ok cur) (hLive : s.GetValsetNonce = .ok live)
    (hNonce : latest.Nonce > cur.Nonce) (hLiveNonce : latest.Nonce > Uint64 live) :
    relayConfirmed s latest sigs =
      ⟨⟨.FindLatestValset, false⟩ :: ⟨.GetValsetNonce, false⟩ ::
          (delayGateAndSend s cur latest sigs).trace, (delayGateAndSend s cur latest sigs).err⟩ := by
  unfold relayConfirmed
  simp only [hCur, hLive, hNonce, hLiveNonce, if_true]

/-- The delay gate closed: the clock has not passed `createdAt + offset`. -/
theorem delayGateAndSend_closed (s : peggyRelayer) (cur latest : Valset)
    (sigs : List MsgValsetConfirm) (createdAt : Time) (offset : Duration)
    (hBlock : s.GetBlock (int64 latest.Height) = .ok createdAt)
    (hParse : s.ParseDuration s.relayValsetOffsetDur = .ok offset)
    (hClock : s.Now ≤ createdAt + offset) :
    (delayGateAndSend s cur latest sigs).err = none ∧
      (delayGateAndSend s cur latest sigs).submissions = [] := by
  unfold delayGateAndSend
  simp only [hBlock, hParse, Time.Sub_nonpos_iff, Time.Add, hClock, if_true]
  simp [Run.submissions, Event.submission]

/-- The delay gate open: the clock has passed `createdAt + offset`, and the
submission is made with the two valsets and the signatures. -/
theorem delayGateAndSend_open (s : peggyRelayer) (cur latest : Valset)
    (sigs : List MsgValsetConfirm) (createdAt : Time) (offset : Duration)
    (hBlock : s.GetBlock (int64 latest.Height) = .ok createdAt)
    (hParse : s.ParseDuration s.relayValsetOffsetDur = .ok offset)
    (hClock : createdAt + offset < s.Now) :
    (delayGateAndSend s cur latest sigs).submissions = [(cur, latest, sigs)] ∧
      (∀ tx, s.SendEthValsetUpdate cur latest sigs = .ok tx →
        (delayGateAndSend s cur latest sigs).err = none) ∧
      (∀ err, s.SendEthValsetUpdate cur latest sigs = .error err →
        (delayGateAndSend s cur latest sigs).err = some err) := by
  have hgate : ¬ (s.Now ≤ createdAt + offset) := not_le.mpr hClock
  unfold delayGateAndSend
  simp only [hBlock, hParse, Time.Sub_nonpos_iff, Time.Add, hgate, if_false]
  cases hsend : s.SendEthValsetUpdate cur latest sigs with
  | error e => simp [Run.submissions, Event.submission]
  | ok tx => simp [Run.submissions, Event.submission]

/-- When every valset of the list is fetched successfully and has no
confirmation, the scan ends with `latestCosmosConfirmed` still `nil`. -/
theorem findLatestConfirmed_none (s : peggyRelayer) (vs : List Valset)
    (hNone : ∀ v ∈ vs, s.AllValsetConfirms v.Nonce = .ok []) :
    (findLatestConfirmed s vs).2 = .ok none := by
  induction vs with
  | nil => rfl
  | cons hd rest ih =>
    unfold findLatestConfirmed
    rw [hNone hd (List.mem_cons_self _ _)]
    simpa using ih (fun v hv => hNone v (List.mem_cons_of_mem _ hv))

/-! ## The gates, claim by claim -/

/-- C1: when the listing, the scan, both target reads, the block read and the
offset parse succeed, the confirmed valset's nonce is strictly above both the
target valset's nonce and the live nonce, and the clock is strictly later than
the block time plus the offset, the submission is called exactly once, with the
target valset, the confirmed valset and the confirmations fetched for its nonce;
the method returns `nil` when the submission succeeds and the submission's own
error, not wrapped, when it fails. -/
theorem relay_when_all_gates_pass (s : peggyRelayer) (vs : List Valset) (latest cur : Valset)
    (sigs : List MsgValsetConfirm) (live : Nat) (createdAt : Time) (offset : Duration)
    (hList : s.LatestValsets = .ok vs)
    (hScan : (findLatestConfirmed s vs).2 = .ok (some (latest, sigs)))
    (hCur : s.FindLatestValset = .ok cur)
    (hLive : s.GetValsetNonce = .ok live)
    (hNonce : latest.Nonce > cur.Nonce) (hLiveNonce : latest.Nonce > live)
    (hBlock : s.GetBlock (int64 latest.Height) = .ok createdAt)
    (hParse : s.ParseDuration s.relayValsetOffsetDur = .ok offset)
    (hClock : s.Now > createdAt + offset) :
    (RelayValsets s).submissions = [(cur, latest, sigs)] ∧
      s.AllValsetConfirms latest.Nonce = .ok sigs ∧
      (∀ tx, s.SendEthValsetUpdate cur latest sigs = .ok tx → (RelayValsets s).err = none) ∧
      (∀ err, s.SendEthValsetUpdate cur latest sigs = .error err →
        (RelayValsets s).err = some err) := by
  have hTrunc : latest.Nonce > Uint64 live := lt_of_le_of_lt (Uint64_le live) hLiveNonce
  have hOpen := delayGateAndSend_open s cur latest sigs createdAt offset hBlock hParse hClock
  have hRun := RelayValsets_of_confirmed s vs latest sigs hList hScan
  have hRelay := relayConfirmed_of_newer s latest cur sigs live hCur hLive hNonce hTrunc
  obtain ⟨pre, post, -, -, hFetched, -⟩ := (findLatestConfirmed_some_iff s vs latest sigs).mp hScan
  refine ⟨?_, hFetched, ?_, ?_⟩
  · rw [submissions_of_confirmed s vs latest sigs hList hScan, hRelay]
    simpa [Run.submissions, Event.submission] using hOpen.1
  · intro tx htx
    rw [hRun, hRelay]
    exact hOpen.2.1 tx htx
  · intro err herr
    rw [hRun, hRelay]
    exact hOpen.2.2 err herr

/-- C1 on the scenario of the design document: target nonce 3, live nonce 3,
clock two hours after block 100, one submission of valset 4. -/
theorem relay_when_all_gates_pass_witness :
    (RelayValsets (scenario 3 (blockT + 2 * hour))).submissions =
        [(valset3, valset4, [confirm4])] ∧
      (scenario 3 (blockT + 2 * hour)).AllValsetConfirms valset4.Nonce = .ok [confirm4] ∧
      (RelayValsets (scenario 3 (blockT + 2 * hour))).err = none :=
  have h := relay_when_all_gates_pass (scenario 3 (blockT + 2 * hour)) [valset5, valset4]
    valset4 valset3 [confirm4] 3 blockT hour rfl rfl rfl rfl (by decide) (by decide) rfl rfl
    (by decide)
  ⟨h.1, h.2.1, h.2.2.1 51966 rfl⟩

/-- Race avoidance for live nonces that fit 64 bits: when the confirmed valset is
newer than the target valset but the live nonce, below `2 ^ 64`, is at least the
confirmed nonce, the method returns `nil` and submits nothing. -/
theorem race_avoidance_of_fits (s : peggyRelayer) (vs : List Valset) (latest cur : Valset)
    (sigs : List MsgValsetConfirm) (live : Nat)
    (hList : s.LatestValsets = .ok vs)
    (hScan : (findLatestConfirmed s vs).2 = .ok (some (latest, sigs)))
    (hCur : s.FindLatestValset = .ok cur)
    (hLive : s.GetValsetNonce = .ok live)
    (hNonce : latest.Nonce > cur.Nonce) (hFits : live < 2 ^ 64)
    (hRaced : latest.Nonce ≤ live) :
    (RelayValsets s).err = none ∧ (RelayValsets s).submissions = [] := by
  have hgate : ¬ (latest.Nonce > Uint64 live) := by
    rw [Uint64_of_lt live hFits]
    exact not_lt.mpr hRaced
  have hRelay : relayConfirmed s latest sigs =
      ⟨[⟨.FindLatestValset, false⟩, ⟨.GetValsetNonce, false⟩], none⟩ := by
    unfold relayConfirmed
    simp only [hCur, hLive, hNonce, hgate, if_true, if_false]
  constructor
  · rw [RelayValsets_of_confirmed s vs latest sigs hList hScan, hRelay]
  · rw [submissions_of_confirmed s vs latest sigs hList hScan, hRelay]
    rfl

/-- The race scenario of the design document: live nonce 4 while the target
valset still shows 3, no submission. -/
theorem race_avoidance_of_fits_witness :
    (RelayValsets (scenario 4 (blockT + 2 * hour))).err = none ∧
      (RelayValsets (scenario 4 (blockT + 2 * hour))).submissions = [] :=
  race_avoidance_of_fits (scenario 4 (blockT + 2 * hour)) [valset5, valset4] valset4 valset3
    [confirm4] 4 rfl rfl rfl rfl (by decide) (by decide) (by decide)

/-- C2 at a live nonce that does not fit 64 bits: the contract reports
`2 ^ 64 + 3`, above the confirmed nonce 4, so another submitter has already
relayed; line 70 compares 4 with the low 64 bits of the live nonce, which are 3,
and valset 4 is submitted all the same. -/
theorem race_avoidance_fails_beyond_uint64 :
    (scenario (2 ^ 64 + 3) (blockT + 2 * hour)).GetValsetNonce = .ok (2 ^ 64 + 3) ∧
      valset4.Nonce ≤ 2 ^ 64 + 3 ∧
      Uint64 (2 ^ 64 + 3) = 3 ∧
      (RelayValsets (scenario (2 ^ 64 + 3) (blockT + 2 * hour))).submissions =
        [(valset3, valset4, [confirm4])] :=
  ⟨rfl, by decide, by decide, by decide⟩

/-- The first nonce gate closed: the confirmed nonce is not above the target
valset's nonce, and lines 52-107 end after the one target read. -/
theorem relayConfirmed_of_not_newer (s : peggyRelayer) (latest cur : Valset)
    (sigs : List MsgValsetConfirm) (hCur : s.FindLatestValset = .ok cur)
    (hLe : latest.Nonce ≤ cur.Nonce) :
    relayConfirmed s latest sigs = ⟨[⟨.FindLatestValset, false⟩], none⟩ := by
  have hgate : ¬ (latest.Nonce > cur.Nonce) := not_lt.mpr hLe
  unfold relayConfirmed
  simp only [hCur, hgate, if_false]

/-- C3: when a confirmed valset exists and its nonce is at most the target
valset's nonce (equality included), the method returns `nil` and submits
nothing. -/
theorem no_relay_when_target_current (s : peggyRelayer) (vs : List Valset)
    (latest cur : Valset) (sigs : List MsgValsetConfirm)
    (hList : s.LatestValsets = .ok vs)
    (hScan : (findLatestConfirmed s vs).2 = .ok (some (latest, sigs)))
    (hCur : s.FindLatestValset = .ok cur)
    (hLe : latest.Nonce ≤ cur.Nonce) :
    (RelayValsets s).err = none ∧ (RelayValsets s).submissions = [] := by
  have hRelay := relayConfirmed_of_not_newer s latest cur sigs hCur hLe
  constructor
  · rw [RelayValsets_of_confirmed s vs latest sigs hList hScan, hRelay]
  · rw [submissions_of_confirmed s vs latest sigs hList hScan, hRelay]
    rfl

/-- C3 at a tie: the target chain already holds valset 4. -/
theorem no_relay_when_target_current_witness :
    (RelayValsets (scenarioWith valset4 3 "1h" (blockT + 2 * hour))).err = none ∧
      (RelayValsets (scenarioWith valset4 3 "1h" (blockT + 2 * hour))).submissions = [] :=
  no_relay_when_target_current (scenarioWith valset4 3 "1h" (blockT + 2 * hour))
    [valset5, valset4] valset4 valset4 [confirm4] rfl rfl rfl (by decide)

/-- C4: when every valset the source chain lists (possibly none) is fetched
successfully and has no confirmation, the method returns `nil` and submits
nothing. -/
theorem nothing_confirmed_is_noop (s : peggyRelayer) (vs : List Valset)
    (hList : s.LatestValsets = .ok vs)
    (hNone : ∀ v ∈ vs, s.AllValsetConfirms v.Nonce = .ok []) :
    (RelayValsets s).err = none ∧ (RelayValsets s).submissions = [] := by
  have hScan := findLatestConfirmed_none s vs hNone
  have hRun : RelayValsets s = ⟨⟨.LatestValsets, false⟩ :: (findLatestConfirmed s vs).1, none⟩ := by
    unfold RelayValsets
    simp only [hList, hScan]
  rw [hRun]
  refine ⟨rfl, ?_⟩
  simp [Run.submissions, findLatestConfirmed_submissions, Event.submission]

/-- C4 on two listed valsets without confirmations. -/
theorem nothing_confirmed_is_noop_witness :
    (RelayValsets unconfirmedScenario).err = none ∧
      (RelayValsets unconfirmedScenario).submissions = [] :=
  nothing_confirmed_is_noop unconfirmedScenario [valset5, valset4] rfl (fun _ _ => rfl)

/-- C5: when both nonce comparisons pass and the block read and the offset parse
succeed, a clock strictly before the block time plus the offset makes the method
return `nil` without submitting. -/
theorem delay_gate_holds (s : peggyRelayer) (vs : List Valset) (latest cur : Valset)
    (sigs : List MsgValsetConfirm) (live : Nat) (createdAt : Time) (offset : Duration)
    (hList : s.LatestValsets = .ok vs)
    (hScan : (findLatestConfirmed s vs).2 = .ok (some (latest, sigs)))
    (hCur : s.FindLatestValset = .ok cur)
    (hLive : s.GetValsetNonce = .ok live)
    (hNonce : latest.Nonce > cur.Nonce) (hLiveNonce : latest.Nonce > live)
    (hBlock : s.GetBlock (int64 latest.Height) = .ok createdAt)
    (hParse : s.ParseDuration s.relayValsetOffsetDur = .ok offset)
    (hClock : s.Now < createdAt + offset) :
    (RelayValsets s).err = none ∧ (RelayValsets s).submissions = [] := by
  have hTrunc : latest.Nonce > Uint64 live := lt_of_le_of_lt (Uint64_le live) hLiveNonce
  have hClosed := delayGateAndSend_closed s cur latest sigs createdAt offset hBlock hParse
    (le_of_lt hClock)
  have hRelay := relayConfirmed_of_newer s latest cur sigs live hCur hLive hNonce hTrunc
  constructor
  · rw [RelayValsets_of_confirmed s vs latest sigs hList hScan, hRelay]
    exact hClosed.1
  · rw [submissions_of_confirmed s vs latest sigs hList hScan, hRelay]
    simpa [Run.submissions, Event.submission] using hClosed.2

/-- C5 on the scenario of the design document: clock thirty minutes after
block 100, offset one hour, no submission. -/
theorem delay_gate_holds_witness :
    (RelayValsets (scenario 3 (blockT + halfHour))).err = none ∧
      (RelayValsets (scenario 3 (blockT + halfHour))).submissions = [] :=
  delay_gate_holds (scenario 3 (blockT + halfHour)) [valset5, valset4] valset4 valset3
    [confirm4] 3 blockT hour rfl rfl rfl rfl (by decide) (by decide) rfl rfl (by decide)

/-- C6 as amended: with both nonce comparisons passed and the block read and
the offset parse successful, the method returns `nil` without submitting as long
as the clock is not strictly later than `createdAt + offset`, the instant
`createdAt + offset` itself included, and it submits exactly when the clock is
strictly later. -/
theorem delay_gate_boundary (s : peggyRelayer) (vs : List Valset) (latest cur : Valset)
    (sigs : List MsgValsetConfirm) (live : Nat) (createdAt : Time) (offset : Duration)
    (hList : s.LatestValsets = .ok vs)
    (hScan : (findLatestConfirmed s vs).2 = .ok (some (latest, sigs)))
    (hCur : s.FindLatestValset = .ok cur)
    (hLive : s.GetValsetNonce = .ok live)
    (hNonce : latest.Nonce > cur.Nonce) (hLiveNonce : latest.Nonce > live)
    (hBlock : s.GetBlock (int64 latest.Height) = .ok createdAt)
    (hParse : s.ParseDuration s.relayValsetOffsetDur = .ok offset) :
    (s.Now ≤ createdAt + offset →
        (RelayValsets s).err = none ∧ (RelayValsets s).submissions = []) ∧
      (s.Now = createdAt + offset → (RelayValsets s).submissions = []) ∧
      ((RelayValsets s).submissions = [(cur, latest, sigs)] ↔ createdAt + offset < s.Now) := by
  have hTrunc : latest.Nonce > Uint64 live := lt_of_le_of_lt (Uint64_le live) hLiveNonce
  have hRelay := relayConfirmed_of_newer s latest cur sigs live hCur hLive hNonce hTrunc
  have hSub : (RelayValsets s).submissions = (delayGateAndSend s cur latest sigs).submissions := by
    rw [submissions_of_confirmed s vs latest sigs hList hScan, hRelay]
    simp [Run.submissions, Event.submission]
  have hClosed : s.Now ≤ createdAt + offset →
      (RelayValsets s).err = none ∧ (RelayValsets s).submissions = [] := by
    intro hClock
    have h := delayGateAndSend_closed s cur latest sigs createdAt offset hBlock hParse hClock
    refine ⟨?_, hSub.trans h.2⟩
    rw [RelayValsets_of_confirmed s vs latest sigs hList hScan, hRelay]
    exact h.1
  refine ⟨hClosed, fun hEq => (hClosed (le_of_eq hEq)).2, ?_, ?_⟩
  · intro hOne
    by_contra hNot
    have := (hClosed (not_lt.mp hNot)).2
    rw [hOne] at this
    cases this
  · intro hClock
    rw [hSub]
    exact (delayGateAndSend_open s cur latest sigs createdAt offset hBlock hParse hClock).1

/-- C6 as amended, at the boundary: offset one hour and the clock exactly one
hour after block 100, no submission. -/
theorem delay_gate_boundary_witness :
    (scenario 3 (blockT + hour)).Now = blockT + hour ∧
      (RelayValsets (scenario 3 (blockT + hour))).submissions = [] :=
  ⟨rfl, (delay_gate_boundary (scenario 3 (blockT + hour)) [valset5, valset4] valset4 valset3
    [confirm4] 3 blockT hour rfl rfl rfl rfl (by decide) (by decide) rfl rfl).2.1 rfl⟩

/-- C6 as stated fails: offset zero and the clock exactly at the block time, both
nonce comparisons passed, and nothing is submitted. -/
theorem delay_gate_boundary_counterexample :
    (scenarioWith valset3 3 "0s" blockT).ParseDuration
        (scenarioWith valset3 3 "0s" blockT).relayValsetOffsetDur = .ok 0 ∧
      (scenarioWith valset3 3 "0s" blockT).GetBlock (int64 valset4.Height) = .ok blockT ∧
      (scenarioWith valset3 3 "0s" blockT).Now = blockT + 0 ∧
      (findLatestConfirmed (scenarioWith valset3 3 "0s" blockT) [valset5, valset4]).2 =
        .ok (some (valset4, [confirm4])) ∧
      valset4.Nonce > valset3.Nonce ∧ valset4.Nonce > 3 ∧
      (RelayValsets (scenarioWith valset3 3 "0s" blockT)).err = none ∧
      (RelayValsets (scenarioWith valset3 3 "0s" blockT)).submissions = [] :=
  ⟨rfl, rfl, rfl, rfl, by decide, by decide, by decide, by decide⟩

/-- C7 as amended: the valset selected is the first one, in the order the source
chain returned the list, that has at least one confirmation; when that order is
newest first (nonces never increasing along the list) it has the greatest nonce
among the confirmed valsets of the list. -/
theorem latest_confirmed_is_first_confirmed (s : peggyRelayer) (vs : List Valset)
    (set : Valset) (sigs : List MsgValsetConfirm)
    (hScan : (findLatestConfirmed s vs).2 = .ok (some (set, sigs))) :
    (∃ pre post, vs = pre ++ set :: post ∧
        (∀ v ∈ pre, s.AllValsetConfirms v.Nonce = .ok []) ∧
        s.AllValsetConfirms set.Nonce = .ok sigs ∧ sigs ≠ []) ∧
      (vs.Pairwise (fun a b => b.Nonce ≤ a.Nonce) →
        ∀ v ∈ vs, ∀ c, s.AllValsetConfirms v.Nonce = .ok c → c ≠ [] → v.Nonce ≤ set.Nonce) := by
  have hFirst := (findLatestConfirmed_some_iff s vs set sigs).mp hScan
  refine ⟨hFirst, ?_⟩
  obtain ⟨pre, post, hsplit, hpre, -, -⟩ := hFirst
  intro hSorted v hv c hc hne
  subst hsplit
  rcases List.mem_append.mp hv with hv | hv
  · have := hpre v hv
    rw [hc] at this
    cases this
    exact absurd rfl hne
  · rcases List.mem_cons.mp hv with rfl | hv
    · exact le_refl _
    · exact (List.pairwise_cons.mp (List.pairwise_append.mp hSorted).2.1).1 v hv

/-- C7 as amended, on a newest-first list with both valsets confirmed: valset 5
is selected and the confirmed valset 4 is not above it. -/
theorem latest_confirmed_is_first_confirmed_witness :
    (findLatestConfirmed bothConfirmedScenario [valset5, valset4]).2 =
        .ok (some (valset5, [confirm5])) ∧
      bothConfirmedScenario.AllValsetConfirms valset4.Nonce = .ok [confirm4] ∧
      valset4.Nonce ≤ valset5.Nonce :=
  ⟨rfl, rfl, (latest_confirmed_is_first_confirmed bothConfirmedScenario [valset5, valset4]
    valset5 [confirm5] rfl).2 (by decide) valset4 (by decide) [confirm4] rfl (by decide)⟩

/-- C7 as stated fails: the source chain lists valset 4 before valset 5, both
confirmed; valset 4 is selected and submitted although valset 5 is confirmed and
newer. -/
theorem latest_confirmed_counterexample :
    unsortedScenario.LatestValsets = .ok [valset4, valset5] ∧
      unsortedScenario.AllValsetConfirms valset5.Nonce = .ok [confirm5] ∧
      valset4.Nonce < valset5.Nonce ∧
      (findLatestConfirmed unsortedScenario [valset4, valset5]).2 =
        .ok (some (valset4, [confirm4])) ∧
      (RelayValsets unsortedScenario).submissions = [(valset3, valset4, [confirm4])] :=
  ⟨rfl, rfl, by decide, rfl, by decide⟩

/-! ## Errors -/

/-- A failed listing is returned wrapped, and nothing else is called. -/
theorem listing_error_wrapped (s : peggyRelayer) (e : Error)
    (hList : s.LatestValsets = .error e) :
    RelayValsets s =
      ⟨[⟨.LatestValsets, true⟩], some (.Wrap e "failed to fetch latest valsets from cosmos")⟩ := by
  unfold RelayValsets
  simp only [hList]

/-- A confirmation fetch that fails before any confirmed valset was met ends the
scan with the error wrapped together with the nonce asked for. -/
theorem findLatestConfirmed_error (s : peggyRelayer) (pre post : List Valset) (v : Valset)
    (e : Error) (hpre : ∀ u ∈ pre, s.AllValsetConfirms u.Nonce = .ok [])
    (hFail : s.AllValsetConfirms v.Nonce = .error e) :
    (findLatestConfirmed s (pre ++ v :: post)).2 =
      .error (.Wrapf e "failed to get valset confirms at nonce %d" v.Nonce) := by
  induction pre with
  | nil =>
    simp only [List.nil_append]
    unfold findLatestConfirmed
    simp only [hFail]
  | cons hd rest ih =>
    simp only [List.cons_append]
    unfold findLatestConfirmed
    rw [hpre hd (List.mem_cons_self _ _)]
    simpa using ih (fun u hu => hpre u (List.mem_cons_of_mem _ hu))

/-- A failed confirmation fetch is returned wrapped, with the nonce asked for, and
nothing is submitted. -/
theorem confirms_error_wrapped (s : peggyRelayer) (pre post : List Valset) (v : Valset)
    (e : Error) (hList : s.LatestValsets = .ok (pre ++ v :: post))
    (hpre : ∀ u ∈ pre, s.AllValsetConfirms u.Nonce = .ok [])
    (hFail : s.AllValsetConfirms v.Nonce = .error e) :
    (RelayValsets s).err =
        some (.Wrapf e "failed to get valset confirms at nonce %d" v.Nonce) ∧
      (RelayValsets s).submissions = [] := by
  have hScan := findLatestConfirmed_error s pre post v e hpre hFail
  have hRun : RelayValsets s =
      ⟨⟨.LatestValsets, false⟩ :: (findLatestConfirmed s (pre ++ v :: post)).1,
        some (.Wrapf e "failed to get valset confirms at nonce %d" v.Nonce)⟩ := by
    unfold RelayValsets
    simp only [hList, hScan]
  rw [hRun]
  refine ⟨rfl, ?_⟩
  simp [Run.submissions, findLatestConfirmed_submissions, Event.submission]

/-- A failed read of the target chain's valset is returned wrapped, and nothing is
submitted. -/
theorem target_valset_error_wrapped (s : peggyRelayer) (vs : List Valset) (latest : Valset)
    (sigs : List MsgValsetConfirm) (e : Error) (hList : s.LatestValsets = .ok vs)
    (hScan : (findLatestConfirmed s vs).2 = .ok (some (latest, sigs)))
    (hCur : s.FindLatestValset = .error e) :
    (RelayValsets s).err =
        some (.Wrap e "couldn't find latest confirmed valset on Ethereum") ∧
      (RelayValsets s).submissions = [] := by
  have hRelay : relayConfirmed s latest sigs =
      ⟨[⟨.FindLatestValset, true⟩],
        some (.Wrap e "couldn't find latest confirmed valset on Ethereum")⟩ := by
    unfold relayConfirmed
    simp only [hCur]
  constructor
  · rw [RelayValsets_of_confirmed s vs latest sigs hList hScan, hRelay]
  · rw [submissions_of_confirmed s vs latest sigs hList hScan, hRelay]
    rfl

/-- A failed read of the live nonce is returned wrapped, and nothing is
submitted. -/
theorem live_nonce_error_wrapped (s : peggyRelayer) (vs : List Valset) (latest cur : Valset)
    (sigs : List MsgValsetConfirm) (e : Error) (hList : s.LatestValsets = .ok vs)
    (hScan : (findLatestConfirmed s vs).2 = .ok (some (latest, sigs)))
    (hCur : s.FindLatestValset = .ok cur) (hNonce : latest.Nonce > cur.Nonce)
    (hLive : s.GetValsetNonce = .error e) :
    (RelayValsets s).err = some (.Wrap e "failed to get latest Valset nonce") ∧
      (RelayValsets s).submissions = [] := by
  have hRelay : relayConfirmed s latest sigs =
      ⟨[⟨.FindLatestValset, false⟩, ⟨.GetValsetNonce, true⟩],
        some (.Wrap e "failed to get latest Valset nonce")⟩ := by
    unfold relayConfirmed
    simp only [hCur, hLive, hNonce, if_true]
  constructor
  · rw [RelayValsets_of_confirmed s vs latest sigs hList hScan, hRelay]
  · rw [submissions_of_confirmed s vs latest sigs hList hScan, hRelay]
    rfl

/-- A failed block read is returned as it came, without annotation; nothing is
submitted. -/
theorem block_error_bare (s : peggyRelayer) (vs : List Valset) (latest cur : Valset)
    (sigs : List MsgValsetConfirm) (live : Nat) (e : Error)
    (hList : s.LatestValsets = .ok vs)
    (hScan : (findLatestConfirmed s vs).2 = .ok (some (latest, sigs)))
    (hCur : s.FindLatestValset = .ok cur) (hLive : s.GetValsetNonce = .ok live)
    (hNonce : latest.Nonce > cur.Nonce) (hLiveNonce : latest.Nonce > Uint64 live)
    (hBlock : s.GetBlock (int64 latest.Height) = .error e) :
    (RelayValsets s).err = some e ∧ (RelayValsets s).submissions = [] := by
  have hRelay := relayConfirmed_of_newer s latest cur sigs live hCur hLive hNonce hLiveNonce
  have hGate : delayGateAndSend s cur latest sigs =
      ⟨[⟨.GetBlock (int64 latest.Height), true⟩], some e⟩ := by
    unfold delayGateAndSend
    simp only [hBlock]
  constructor
  · rw [RelayValsets_of_confirmed s vs latest sigs hList hScan, hRelay, hGate]
  · rw [submissions_of_confirmed s vs latest sigs hList hScan, hRelay, hGate]
    rfl

/-- C8 at a failing block read: the listing, the scan and both target reads
succeed, valset 4 passes both nonce comparisons, the Tendermint client answers
the block query with an error, and the method returns that very error, not
wrapped in any annotation (no submission is made). -/
theorem block_fetch_error_returned_bare :
    blockFailScenario.GetBlock (int64 valset4.Height) =
        .error (.base "rpc error: connection refused") ∧
      (RelayValsets blockFailScenario).err = some (.base "rpc error: connection refused") ∧
      (RelayValsets blockFailScenario).submissions = [] :=
  ⟨rfl, by decide, by decide⟩

/-! ## Submissions and failures along a run -/

/-- The delay gate and submission stage submits nothing or exactly the triple it
was entered with. -/
theorem delayGateAndSend_submissions (s : peggyRelayer) (cur latest : Valset)
    (sigs : List MsgValsetConfirm) :
    (delayGateAndSend s cur latest sigs).submissions = [] ∨
      (delayGateAndSend s cur latest sigs).submissions = [(cur, latest, sigs)] := by
  unfold delayGateAndSend
  repeat' split
  all_goals simp [Run.submissions, Event.submission]

/-- Lines 52-107 submit nothing, or exactly once: the valset read from the target
chain, the confirmed valset and its signatures. -/
theorem relayConfirmed_submissions (s : peggyRelayer) (latest : Valset)
    (sigs : List MsgValsetConfirm) :
    (relayConfirmed s latest sigs).submissions = [] ∨
      ∃ cur, s.FindLatestValset = .ok cur ∧
        (relayConfirmed s latest sigs).submissions = [(cur, latest, sigs)] := by
  unfold relayConfirmed
  cases hCur : s.FindLatestValset with
  | error e => left; rfl
  | ok cur =>
    simp only
    split
    · cases hLive : s.GetValsetNonce with
      | error e => left; rfl
      | ok live =>
        simp only
        split
        · rcases delayGateAndSend_submissions s cur latest sigs with h | h
          · left
            simpa [Run.submissions, Event.submission] using h
          · right
            exact ⟨cur, rfl, by simpa [Run.submissions, Event.submission] using h⟩
        · left; rfl
    · left; rfl

/-- A run submits nothing, or exactly once: then the listing succeeded, the scan
selected a confirmed valset, the target valset was read, and these are the
arguments of the submission. -/
theorem RelayValsets_submissions (s : peggyRelayer) :
    (RelayValsets s).submissions = [] ∨
      ∃ vs cur latest sigs, s.LatestValsets = .ok vs ∧
        (findLatestConfirmed s vs).2 = .ok (some (latest, sigs)) ∧
        s.FindLatestValset = .ok cur ∧
        (RelayValsets s).submissions = [(cur, latest, sigs)] := by
  cases hList : s.LatestValsets with
  | error e =>
    left
    rw [listing_error_wrapped s e hList]
    rfl
  | ok vs =>
    cases hScan : (findLatestConfirmed s vs).2 with
    | error e =>
      left
      unfold RelayValsets
      simp [hList, hScan, Run.submissions, findLatestConfirmed_submissions, Event.submission]
    | ok found =>
      cases found with
      | none =>
        left
        unfold RelayValsets
        simp [hList, hScan, Run.submissions, findLatestConfirmed_submissions, Event.submission]
      | some pair =>
        obtain ⟨latest, sigs⟩ := pair
        rw [submissions_of_confirmed s vs latest sigs hList hScan]
        rcases relayConfirmed_submissions s latest sigs with h | ⟨cur, hCur, h⟩
        · left; exact h
        · right; exact ⟨vs, cur, latest, sigs, rfl, hScan, hCur, h⟩

/-- The scan depends on the receiver only through the confirmation fetch. -/
theorem findLatestConfirmed_congr (s1 s2 : peggyRelayer)
    (hConfirms : s2.AllValsetConfirms = s1.AllValsetConfirms) (vs : List Valset) :
    findLatestConfirmed s2 vs = findLatestConfirmed s1 vs := by
  induction vs with
  | nil => rfl
  | cons hd rest ih =>
    unfold findLatestConfirmed
    rw [hConfirms, ih]

/-- The empty log has no failed call. -/
theorem FailedLast_nil : FailedLast [] := by
  intro pre e post h
  simp at h

/-- In a log of one call nothing follows that call. -/
theorem FailedLast_singleton (e : Event) : FailedLast [e] := by
  intro pre x post h _
  cases pre with
  | nil =>
    simp only [List.nil_append, List.cons.injEq] at h
    exact h.2.symm
  | cons p pre =>
    simp at h

/-- A successful call in front keeps the property. -/
theorem FailedLast_cons (e : Event) (t : List Event) (hOk : e.failed = false)
    (ht : FailedLast t) : FailedLast (e :: t) := by
  intro pre x post h hx
  cases pre with
  | nil =>
    simp only [List.nil_append, List.cons.injEq] at h
    rw [← h.1, hOk] at hx
    cases hx
  | cons p pre =>
    simp only [List.cons_append, List.cons.injEq] at h
    exact ht pre x post h.2 hx

/-- A block of successful calls in front keeps the property. -/
theorem FailedLast_append (t1 t2 : List Event) (hOk : ∀ e ∈ t1, e.failed = false)
    (ht : FailedLast t2) : FailedLast (t1 ++ t2) := by
  induction t1 with
  | nil => simpa using ht
  | cons hd rest ih =>
    rw [List.cons_append]
    exact FailedLast_cons hd _ (hOk hd (List.mem_cons_self _ _))
      (ih (fun e he => hOk e (List.mem_cons_of_mem _ he)))

/-- In the scan a failed fetch is the last call, and a scan that ends without
error has no failed fetch. -/
theorem findLatestConfirmed_failed (s : peggyRelayer) (vs : List Valset) :
    FailedLast (findLatestConfirmed s vs).1 ∧
      (∀ r, (findLatestConfirmed s vs).2 = .ok r →
        ∀ e ∈ (findLatestConfirmed s vs).1, e.failed = false) := by
  induction vs with
  | nil =>
    refine ⟨FailedLast_nil, ?_⟩
    intro r _ e he
    simp [findLatestConfirmed] at he
  | cons hd rest ih =>
    unfold findLatestConfirmed
    cases hfetch : s.AllValsetConfirms hd.Nonce with
    | error err =>
      refine ⟨FailedLast_singleton _, ?_⟩
      intro r hr
      simp at hr
    | ok fetched =>
      by_cases hlen : fetched.length = 0
      · simp only [hlen, if_true]
        refine ⟨FailedLast_cons _ _ rfl ih.1, ?_⟩
        intro r hr e he
        rcases List.mem_cons.mp he with rfl | he
        · rfl
        · exact ih.2 r hr e he
      · simp only [hlen, if_false]
        refine ⟨FailedLast_singleton _, ?_⟩
        intro r _ e he
        rw [List.mem_singleton] at he
        rw [he]

/-- In the delay gate and submission stage a failed call is the last call. -/
theorem delayGateAndSend_failed (s : peggyRelayer) (cur latest : Valset)
    (sigs : List MsgValsetConfirm) : FailedLast (delayGateAndSend s cur latest sigs).trace := by
  unfold delayGateAndSend
  repeat' split
  all_goals
    first
    | exact FailedLast_singleton _
    | exact FailedLast_cons _ _ rfl (FailedLast_singleton _)
    | exact FailedLast_cons _ _ rfl (FailedLast_cons _ _ rfl (FailedLast_singleton _))
    | exact FailedLast_cons _ _ rfl
        (FailedLast_cons _ _ rfl (FailedLast_cons _ _ rfl (FailedLast_singleton _)))

/-- In lines 52-107 a failed call is the last call. -/
theorem relayConfirmed_failed (s : peggyRelayer) (latest : Valset)
    (sigs : List MsgValsetConfirm) : FailedLast (relayConfirmed s latest sigs).trace := by
  unfold relayConfirmed
  cases s.FindLatestValset with
  | error e => exact FailedLast_singleton _
  | ok cur =>
    simp only
    split
    · cases s.GetValsetNonce with
      | error e => exact FailedLast_cons _ _ rfl (FailedLast_singleton _)
      | ok live =>
        simp only
        split
        · exact FailedLast_cons _ _ rfl
            (FailedLast_cons _ _ rfl (delayGateAndSend_failed s cur latest sigs))
        · exact FailedLast_cons _ _ rfl (FailedLast_singleton _)
    · exact FailedLast_singleton _

/-- C9: whatever the collaborators answer and whatever the clock reads, a run
contains at most one submission, and a call that returned an error is the last
call of the run: nothing, in particular no submission and no second attempt,
is called after it. -/
theorem at_most_one_submission (s : peggyRelayer) :
    (RelayValsets s).submissions.length ≤ 1 ∧ FailedLast (RelayValsets s).trace := by
  constructor
  · rcases RelayValsets_submissions s with h | ⟨vs, cur, latest, sigs, -, -, -, h⟩
    · rw [h]; exact Nat.zero_le _
    · rw [h]; exact le_refl _
  · cases hList : s.LatestValsets with
    | error e =>
      rw [listing_error_wrapped s e hList]
      exact FailedLast_singleton _
    | ok vs =>
      have hScanFailed := findLatestConfirmed_failed s vs
      cases hScan : (findLatestConfirmed s vs).2 with
      | error e =>
        have hRun : (RelayValsets s).trace =
            ⟨.LatestValsets, false⟩ :: (findLatestConfirmed s vs).1 := by
          unfold RelayValsets
          simp only [hList, hScan]
        rw [hRun]
        exact FailedLast_cons _ _ rfl hScanFailed.1
      | ok found =>
        cases found with
        | none =>
          have hRun : (RelayValsets s).trace =
              ⟨.LatestValsets, false⟩ :: (findLatestConfirmed s vs).1 := by
            unfold RelayValsets
            simp only [hList, hScan]
          rw [hRun]
          exact FailedLast_cons _ _ rfl hScanFailed.1
        | some pair =>
          obtain ⟨latest, sigs⟩ := pair
          rw [RelayValsets_of_confirmed s vs latest sigs hList hScan]
          exact FailedLast_append (⟨.LatestValsets, false⟩ :: (findLatestConfirmed s vs).1) _
            (fun e he => by
              rcases List.mem_cons.mp he with rfl | he
              · rfl
              · exact hScanFailed.2 _ hScan e he)
            (relayConfirmed_failed s latest sigs)

/-- C10: if one invocation submits the confirmed valset with nonce `N`, then an
invocation against the same source-chain answers (the same list of valsets and
the same confirmations) in which the target chain's valset has nonce `N`
returns `nil` and submits nothing, whatever its clock, its live nonce read and
its other collaborators answer. -/
theorem idempotent_after_relay (s1 s2 : peggyRelayer) (cur latest cur2 : Valset)
    (sigs : List MsgValsetConfirm)
    (hFirst : (RelayValsets s1).submissions = [(cur, latest, sigs)])
    (hValsets : s2.LatestValsets = s1.LatestValsets)
    (hConfirms : s2.AllValsetConfirms = s1.AllValsetConfirms)
    (hTarget : s2.FindLatestValset = .ok cur2)
    (hReflects : cur2.Nonce = latest.Nonce) :
    (RelayValsets s2).err = none ∧ (RelayValsets s2).submissions = [] := by
  rcases RelayValsets_submissions s1 with h | ⟨vs, c, l, sg, hList, hScan, -, h⟩
  · rw [h] at hFirst
    cases hFirst
  · rw [h] at hFirst
    simp only [List.cons.injEq, Prod.mk.injEq, and_true] at hFirst
    obtain ⟨-, rfl, rfl⟩ := hFirst
    have hList2 : s2.LatestValsets = .ok vs := hValsets.trans hList
    have hScan2 : (findLatestConfirmed s2 vs).2 = .ok (some (l, sg)) := by
      rw [findLatestConfirmed_congr s1 s2 hConfirms vs]
      exact hScan
    have hRelay := relayConfirmed_of_not_newer s2 l cur2 sg hTarget (le_of_eq hReflects.symm)
    constructor
    · rw [RelayValsets_of_confirmed s2 vs l sg hList2 hScan2, hRelay]
    · rw [submissions_of_confirmed s2 vs l sg hList2 hScan2, hRelay]
      rfl

/-- C10 on the scenario of the design document: the first invocation submits
valset 4; once the target chain holds valset 4 the second one, an hour later and
with a stale live nonce, submits nothing. -/
theorem idempotent_after_relay_witness :
    (RelayValsets (scenario 3 (blockT + 2 * hour))).submissions =
        [(valset3, valset4, [confirm4])] ∧
      (RelayValsets (scenarioWith valset4 3 "1h" (blockT + 3 * hour))).err = none ∧
      (RelayValsets (scenarioWith valset4 3 "1h" (blockT + 3 * hour))).submissions = [] :=
  have hFirst : (RelayValsets (scenario 3 (blockT + 2 * hour))).submissions =
      [(valset3, valset4, [confirm4])] := by decide
  have h := idempotent_after_relay (scenario 3 (blockT + 2 * hour))
    (scenarioWith valset4 3 "1h" (blockT + 3 * hour)) valset3 valset4 valset4 [confirm4]
    hFirst rfl rfl rfl rfl
  ⟨hFirst, h.1, h.2⟩

/-! ## The stored offset -/

/-- The delay gate with an offset that does not parse: the block is read, the
parse fails, and its error is returned as it came. -/
theorem delayGateAndSend_parse_error (s : peggyRelayer) (cur latest : Valset)
    (sigs : List MsgValsetConfirm) (createdAt : Time) (e : Error)
    (hBlock : s.GetBlock (int64 latest.Height) = .ok createdAt)
    (hParse : s.ParseDuration s.relayValsetOffsetDur = .error e) :
    delayGateAndSend s cur latest sigs =
      ⟨[⟨.GetBlock (int64 latest.Height), false⟩,
        ⟨.ParseDuration s.relayValsetOffsetDur, true⟩], some e⟩ := by
  unfold delayGateAndSend
  simp only [hBlock, hParse]

/-- The delay gate and submission stage submits exactly when the block read and
the offset parse succeed and the clock is strictly later than the block time
plus the offset. -/
theorem delayGateAndSend_submits_iff (s : peggyRelayer) (cur latest : Valset)
    (sigs : List MsgValsetConfirm) :
    (delayGateAndSend s cur latest sigs).submissions = [(cur, latest, sigs)] ↔
      ∃ createdAt offset, s.GetBlock (int64 latest.Height) = .ok createdAt ∧
        s.ParseDuration s.relayValsetOffsetDur = .ok offset ∧ createdAt + offset < s.Now := by
  constructor
  · intro h
    cases hBlock : s.GetBlock (int64 latest.Height) with
    | error e =>
      unfold delayGateAndSend at h
      simp [hBlock, Run.submissions, Event.submission] at h
    | ok createdAt =>
      cases hParse : s.ParseDuration s.relayValsetOffsetDur with
      | error e =>
        rw [delayGateAndSend_parse_error s cur latest sigs createdAt e hBlock hParse] at h
        simp [Run.submissions, Event.submission] at h
      | ok offset =>
        by_cases hClock : s.Now ≤ createdAt + offset
        · have := (delayGateAndSend_closed s cur latest sigs createdAt offset hBlock hParse
            hClock).2
          rw [this] at h
          cases h
        · exact ⟨createdAt, offset, rfl, rfl, not_le.mp hClock⟩
  · rintro ⟨createdAt, offset, hBlock, hParse, hClock⟩
    exact (delayGateAndSend_open s cur latest sigs createdAt offset hBlock hParse hClock).1

/-- Lines 52-107 submit exactly when the target valset is read, both nonce
comparisons pass and the delay gate stage submits. -/
theorem relayConfirmed_submits_iff (s : peggyRelayer) (cur latest : Valset)
    (sigs : List MsgValsetConfirm) :
    (relayConfirmed s latest sigs).submissions = [(cur, latest, sigs)] ↔
      s.FindLatestValset = .ok cur ∧ latest.Nonce > cur.Nonce ∧
        ∃ live, s.GetValsetNonce = .ok live ∧ latest.Nonce > Uint64 live ∧
          (delayGateAndSend s cur latest sigs).submissions = [(cur, latest, sigs)] := by
  constructor
  · intro h
    cases hCur : s.FindLatestValset with
    | error e =>
      unfold relayConfirmed at h
      simp [hCur, Run.submissions, Event.submission] at h
    | ok cur2 =>
      by_cases hNonce : latest.Nonce > cur2.Nonce
      · cases hLive : s.GetValsetNonce with
        | error e =>
          unfold relayConfirmed at h
          simp [hCur, hLive, hNonce, Run.submissions, Event.submission] at h
        | ok live =>
          by_cases hGate : latest.Nonce > Uint64 live
          · rw [relayConfirmed_of_newer s latest cur2 sigs live hCur hLive hNonce hGate] at h
            have hSub : (delayGateAndSend s cur2 latest sigs).submissions =
                [(cur, latest, sigs)] := by
              simpa [Run.submissions, Event.submission] using h
            rcases delayGateAndSend_submissions s cur2 latest sigs with h0 | h1
            · rw [h0] at hSub
              cases hSub
            · rw [h1] at hSub
              simp only [List.cons.injEq, Prod.mk.injEq, and_true] at hSub
              obtain ⟨rfl, -⟩ := hSub
              exact ⟨rfl, hNonce, live, rfl, hGate, h1⟩
          · unfold relayConfirmed at h
            simp [hCur, hLive, hNonce, hGate, Run.submissions, Event.submission] at h
      · rw [relayConfirmed_of_not_newer s latest cur2 sigs hCur (not_lt.mp hNonce)] at h
        simp [Run.submissions, Event.submission] at h
  · rintro ⟨hCur, hNonce, live, hLive, hGate, hSub⟩
    rw [relayConfirmed_of_newer s latest cur sigs live hCur hLive hNonce hGate]
    simpa [Run.submissions, Event.submission] using hSub

/-- A run submits `(cur, latest, sigs)` exactly when the listing succeeds, the
scan selects `latest` with `sigs`, the target valset `cur` is read, both nonce
comparisons pass, the block read and the offset parse succeed, and the clock is
strictly later than the block time plus the offset. -/
theorem RelayValsets_submits_iff (s : peggyRelayer) (cur latest : Valset)
    (sigs : List MsgValsetConfirm) :
    (RelayValsets s).submissions = [(cur, latest, sigs)] ↔
      ∃ vs live createdAt offset, s.LatestValsets = .ok vs ∧
        (findLatestConfirmed s vs).2 = .ok (some (latest, sigs)) ∧
        s.FindLatestValset = .ok cur ∧ latest.Nonce > cur.Nonce ∧
        s.GetValsetNonce = .ok live ∧ latest.Nonce > Uint64 live ∧
        s.GetBlock (int64 latest.Height) = .ok createdAt ∧
        s.ParseDuration s.relayValsetOffsetDur = .ok offset ∧ createdAt + offset < s.Now := by
  constructor
  · intro h
    rcases RelayValsets_submissions s with h0 | ⟨vs, c, l, sg, hList, hScan, -, h1⟩
    · rw [h0] at h
      cases h
    · rw [h1] at h
      simp only [List.cons.injEq, Prod.mk.injEq, and_true] at h
      obtain ⟨rfl, rfl, rfl⟩ := h
      rw [submissions_of_confirmed s vs l sg hList hScan] at h1
      obtain ⟨hCur, hNonce, live, hLive, hGate, hSub⟩ :=
        (relayConfirmed_submits_iff s c l sg).mp h1
      obtain ⟨createdAt, offset, hBlock, hParse, hClock⟩ :=
        (delayGateAndSend_submits_iff s c l sg).mp hSub
      exact ⟨vs, live, createdAt, offset, hList, hScan, hCur, hNonce, hLive, hGate, hBlock,
        hParse, hClock⟩
  · rintro ⟨vs, live, createdAt, offset, hList, hScan, hCur, hNonce, hLive, hGate, hBlock,
      hParse, hClock⟩
    rw [submissions_of_confirmed s vs latest sigs hList hScan]
    exact (relayConfirmed_submits_iff s cur latest sigs).mpr
      ⟨hCur, hNonce, live, hLive, hGate,
        (delayGateAndSend_submits_iff s cur latest sigs).mpr
          ⟨createdAt, offset, hBlock, hParse, hClock⟩⟩

/-- C11 as amended: the stored offset is parsed inside the method, on every
invocation that reaches the delay gate; when a confirmed valset exists, both
nonce comparisons pass, the block read succeeds and the stored value does not
parse, the method returns the parse error as it came, the failed parse is in the
call log, and nothing is submitted. -/
theorem parse_error_per_invocation (s : peggyRelayer) (vs : List Valset) (latest cur : Valset)
    (sigs : List MsgValsetConfirm) (live : Nat) (createdAt : Time) (e : Error)
    (hList : s.LatestValsets = .ok vs)
    (hScan : (findLatestConfirmed s vs).2 = .ok (some (latest, sigs)))
    (hCur : s.FindLatestValset = .ok cur)
    (hLive : s.GetValsetNonce = .ok live)
    (hNonce : latest.Nonce > cur.Nonce) (hLiveNonce : latest.Nonce > live)
    (hBlock : s.GetBlock (int64 latest.Height) = .ok createdAt)
    (hParse : s.ParseDuration s.relayValsetOffsetDur = .error e) :
    (RelayValsets s).err = some e ∧
      ⟨.ParseDuration s.relayValsetOffsetDur, true⟩ ∈ (RelayValsets s).trace ∧
      (RelayValsets s).submissions = [] := by
  have hTrunc : latest.Nonce > Uint64 live := lt_of_le_of_lt (Uint64_le live) hLiveNonce
  have hRelay := relayConfirmed_of_newer s latest cur sigs live hCur hLive hNonce hTrunc
  have hGate := delayGateAndSend_parse_error s cur latest sigs createdAt e hBlock hParse
  refine ⟨?_, ?_, ?_⟩
  · rw [RelayValsets_of_confirmed s vs latest sigs hList hScan, hRelay, hGate]
  · rw [RelayValsets_of_confirmed s vs latest sigs hList hScan, hRelay, hGate]
    simp
  · rw [submissions_of_confirmed s vs latest sigs hList hScan, hRelay, hGate]
    rfl

/-- C11 as amended, on the scenario with the stored offset `abc`: the parse error
is what the invocation returns. -/
theorem parse_error_per_invocation_witness :
    (RelayValsets malformedOffsetScenario).err = some (.base "time: invalid duration") ∧
      ⟨.ParseDuration "abc", true⟩ ∈ (RelayValsets malformedOffsetScenario).trace ∧
      (RelayValsets malformedOffsetScenario).submissions = [] :=
  parse_error_per_invocation malformedOffsetScenario [valset5, valset4] valset4 valset3
    [confirm4] 3 blockT (.base "time: invalid duration") rfl rfl rfl rfl (by decide) (by decide)
    rfl rfl

/-- C11 as stated fails: with the stored offset `abc`, which does not parse, an
invocation that passes both nonce comparisons returns the parse error. -/
theorem parse_error_counterexample :
    malformedOffsetScenario.relayValsetOffsetDur = "abc" ∧
      malformedOffsetScenario.ParseDuration "abc" = .error (.base "time: invalid duration") ∧
      (RelayValsets malformedOffsetScenario).err = some (.base "time: invalid duration") ∧
      (RelayValsets malformedOffsetScenario).trace.getLast? =
        some ⟨.ParseDuration "abc", true⟩ :=
  ⟨rfl, rfl, by decide, by decide⟩

/-- C12 as amended: the duration added to the block time is whatever the parse
yields, of either sign.  On an invocation that reaches the delay gate without
error, an offset that is not negative puts `createdAt + offset` at or after
`createdAt`, and nothing is submitted while the clock is at or before
`createdAt`; a negative offset is used as it is, and the valset is submitted as
soon as the clock is strictly later than `createdAt + offset`, which is earlier
than `createdAt`. -/
theorem offset_sign_and_eligibility (s : peggyRelayer) (vs : List Valset) (latest cur : Valset)
    (sigs : List MsgValsetConfirm) (live : Nat) (createdAt : Time) (offset : Duration)
    (hList : s.LatestValsets = .ok vs)
    (hScan : (findLatestConfirmed s vs).2 = .ok (some (latest, sigs)))
    (hCur : s.FindLatestValset = .ok cur)
    (hLive : s.GetValsetNonce = .ok live)
    (hNonce : latest.Nonce > cur.Nonce) (hLiveNonce : latest.Nonce > live)
    (hBlock : s.GetBlock (int64 latest.Height) = .ok createdAt)
    (hParse : s.ParseDuration s.relayValsetOffsetDur = .ok offset) :
    (0 ≤ offset → createdAt ≤ Time.Add createdAt offset ∧
        (s.Now ≤ createdAt → (RelayValsets s).submissions = [])) ∧
      (offset < 0 → Time.Add createdAt offset < createdAt ∧
        (createdAt + offset < s.Now →
          (RelayValsets s).submissions = [(cur, latest, sigs)])) := by
  have hTrunc : latest.Nonce > Uint64 live := lt_of_le_of_lt (Uint64_le live) hLiveNonce
  have hRelay := relayConfirmed_of_newer s latest cur sigs live hCur hLive hNonce hTrunc
  have hSub : (RelayValsets s).submissions = (delayGateAndSend s cur latest sigs).submissions := by
    rw [submissions_of_confirmed s vs latest sigs hList hScan, hRelay]
    simp [Run.submissions, Event.submission]
  constructor
  · intro hNonneg
    refine ⟨?_, ?_⟩
    · unfold Time.Add
      exact le_add_of_nonneg_right hNonneg
    · intro hEarly
      rw [hSub]
      exact (delayGateAndSend_closed s cur latest sigs createdAt offset hBlock hParse
        (le_trans hEarly (le_add_of_nonneg_right hNonneg))).2
  · intro hNeg
    refine ⟨?_, ?_⟩
    · unfold Time.Add
      exact add_lt_of_neg_right createdAt hNeg
    · intro hClock
      rw [hSub]
      exact (delayGateAndSend_open s cur latest sigs createdAt offset hBlock hParse hClock).1

/-- C12 as amended, with the offset of one hour and the clock exactly at the
timestamp of block 100: nothing is submitted. -/
theorem offset_sign_and_eligibility_witness :
    blockT ≤ Time.Add blockT hour ∧ (RelayValsets (scenario 3 blockT)).submissions = [] :=
  have h := (offset_sign_and_eligibility (scenario 3 blockT) [valset5, valset4] valset4 valset3
    [confirm4] 3 blockT hour rfl rfl rfl rfl (by decide) (by decide) rfl rfl).1 (by decide)
  ⟨h.1, h.2 (le_refl _)⟩

/-- C12 as stated fails: the stored offset `-1h` parses to a negative duration,
the invocation reaches the delay gate without error, and valset 4 is submitted
thirty minutes before the timestamp of its block. -/
theorem negative_offset_counterexample :
    negativeOffsetScenario.ParseDuration negativeOffsetScenario.relayValsetOffsetDur =
        .ok (-hour) ∧
      -hour < 0 ∧
      negativeOffsetScenario.GetBlock (int64 valset4.Height) = .ok blockT ∧
      negativeOffsetScenario.Now < blockT ∧
      (RelayValsets negativeOffsetScenario).err = none ∧
      (RelayValsets negativeOffsetScenario).submissions = [(valset3, valset4, [confirm4])] :=
  ⟨rfl, by decide, rfl, by decide, by decide, by decide⟩

/-! ## The scan -/

/-- When every fetch over the list succeeds and some element has confirmations,
the list splits at its first element with confirmations. -/
theorem exists_first_confirmed (s : peggyRelayer) (vs : List Valset)
    (hAll : ∀ v ∈ vs, ∃ c, s.AllValsetConfirms v.Nonce = .ok c)
    (hSome : ∃ v ∈ vs, ∃ c, s.AllValsetConfirms v.Nonce = .ok c ∧ c ≠ []) :
    ∃ pre set post sigs, vs = pre ++ set :: post ∧
      (∀ v ∈ pre, s.AllValsetConfirms v.Nonce = .ok []) ∧
      s.AllValsetConfirms set.Nonce = .ok sigs ∧ sigs ≠ [] := by
  induction vs with
  | nil =>
    obtain ⟨v, hv, -⟩ := hSome
    cases hv
  | cons hd rest ih =>
    obtain ⟨c, hc⟩ := hAll hd (List.mem_cons_self _ _)
    by_cases hEmpty : c = []
    · subst hEmpty
      have hSomeRest : ∃ v ∈ rest, ∃ c, s.AllValsetConfirms v.Nonce = .ok c ∧ c ≠ [] := by
        obtain ⟨v, hv, c2, hc2, hne⟩ := hSome
        rcases List.mem_cons.mp hv with rfl | hv
        · rw [hc] at hc2
          cases hc2
          exact absurd rfl hne
        · exact ⟨v, hv, c2, hc2, hne⟩
      obtain ⟨pre, set, post, sigs, hsplit, hpre, hset, hne⟩ :=
        ih (fun v hv => hAll v (List.mem_cons_of_mem _ hv)) hSomeRest
      refine ⟨hd :: pre, set, post, sigs, by simp [hsplit], ?_, hset, hne⟩
      intro v hv
      rcases List.mem_cons.mp hv with rfl | hv
      · exact hc
      · exact hpre v hv
    · exact ⟨[], hd, rest, c, rfl, by simp, hc, hEmpty⟩

/-- The calls of a scan that selects a valset: one successful fetch for each
element up to and including the selected one, in list order, and none after. -/
theorem findLatestConfirmed_trace (s : peggyRelayer) (pre post : List Valset) (set : Valset)
    (sigs : List MsgValsetConfirm)
    (hpre : ∀ v ∈ pre, s.AllValsetConfirms v.Nonce = .ok [])
    (hset : s.AllValsetConfirms set.Nonce = .ok sigs) (hne : sigs ≠ []) :
    (findLatestConfirmed s (pre ++ set :: post)).1 =
      (pre ++ [set]).map (fun v => ⟨.AllValsetConfirms v.Nonce, false⟩) := by
  induction pre with
  | nil =>
    have hlen : ¬ sigs.length = 0 := fun h => hne (List.length_eq_zero.mp h)
    simp only [List.nil_append, List.map_cons, List.map_nil]
    unfold findLatestConfirmed
    simp only [hset, hlen, if_false]
  | cons hd rest ih =>
    simp only [List.cons_append, List.map_cons]
    unfold findLatestConfirmed
    rw [hpre hd (List.mem_cons_self _ _)]
    simp only [List.length_nil, if_true]
    rw [ih (fun v hv => hpre v (List.mem_cons_of_mem _ hv))]

/-- The delay gate and submission stage fetches no confirmations. -/
theorem delayGateAndSend_confirmFetch (s : peggyRelayer) (cur latest : Valset)
    (sigs : List MsgValsetConfirm) :
    (delayGateAndSend s cur latest sigs).trace.filterMap Event.confirmFetch = [] := by
  unfold delayGateAndSend
  repeat' split
  all_goals simp [Event.confirmFetch]

/-- Lines 52-107 fetch no confirmations. -/
theorem relayConfirmed_confirmFetch (s : peggyRelayer) (latest : Valset)
    (sigs : List MsgValsetConfirm) :
    (relayConfirmed s latest sigs).trace.filterMap Event.confirmFetch = [] := by
  unfold relayConfirmed
  repeat' split
  all_goals simp [Event.confirmFetch, delayGateAndSend_confirmFetch]

/-- C13: when the listing succeeds, every confirmation fetch over the list
succeeds and some listed valset has confirmations, the list splits as
`pre ++ set :: post` where `set` is the first element with a non-empty
confirmation list and every element of `pre` has none; the scan selects `set`
with the confirmations `sigs` fetched for its nonce; the confirmation fetches of
the whole run are exactly those for `pre` and then `set`, in that order, none for
`post`; and any submission of the run carries `set` and `sigs`. -/
theorem scan_stops_at_first_confirmed (s : peggyRelayer) (vs : List Valset)
    (hList : s.LatestValsets = .ok vs)
    (hAll : ∀ v ∈ vs, ∃ c, s.AllValsetConfirms v.Nonce = .ok c)
    (hSome : ∃ v ∈ vs, ∃ c, s.AllValsetConfirms v.Nonce = .ok c ∧ c ≠ []) :
    ∃ pre set post sigs, vs = pre ++ set :: post ∧
      (∀ v ∈ pre, s.AllValsetConfirms v.Nonce = .ok []) ∧
      s.AllValsetConfirms set.Nonce = .ok sigs ∧ sigs ≠ [] ∧
      (findLatestConfirmed s vs).2 = .ok (some (set, sigs)) ∧
      (RelayValsets s).trace.filterMap Event.confirmFetch = (pre ++ [set]).map Valset.Nonce ∧
      (∀ sub ∈ (RelayValsets s).submissions, sub.2 = (set, sigs)) := by
  obtain ⟨pre, set, post, sigs, hsplit, hpre, hset, hne⟩ := exists_first_confirmed s vs hAll hSome
  have hScan : (findLatestConfirmed s vs).2 = .ok (some (set, sigs)) :=
    (findLatestConfirmed_some_iff s vs set sigs).mpr ⟨pre, post, hsplit, hpre, hset, hne⟩
  refine ⟨pre, set, post, sigs, hsplit, hpre, hset, hne, hScan, ?_, ?_⟩
  · rw [RelayValsets_of_confirmed s vs set sigs hList hScan]
    simp only [List.cons_append, List.filterMap_cons, List.filterMap_append,
      relayConfirmed_confirmFetch, List.append_nil]
    rw [hsplit, findLatestConfirmed_trace s pre post set sigs hpre hset hne]
    have hNonces : ∀ l : List Valset,
        (l.map (fun v => (⟨.AllValsetConfirms v.Nonce, false⟩ : Event))).filterMap
          Event.confirmFetch = l.map Valset.Nonce := by
      intro l
      induction l with
      | nil => rfl
      | cons hd tl ih => simp [Event.confirmFetch, ih]
    rw [hNonces]
    simp [Event.confirmFetch]
  · intro sub hsub
    rw [submissions_of_confirmed s vs set sigs hList hScan] at hsub
    rcases relayConfirmed_submissions s set sigs with h | ⟨cur, -, h⟩
    · rw [h] at hsub
      cases hsub
    · rw [h, List.mem_singleton] at hsub
      rw [hsub]

/-- C13 on the scenario of the design document: valset 5 is fetched and skipped,
valset 4 is selected, and the run fetches confirmations for nonces 5 and 4
only. -/
theorem scan_stops_at_first_confirmed_witness :
    ∃ pre set post sigs, [valset5, valset4] = pre ++ set :: post ∧
      (∀ v ∈ pre, (scenario 3 (blockT + 2 * hour)).AllValsetConfirms v.Nonce = .ok []) ∧
      (scenario 3 (blockT + 2 * hour)).AllValsetConfirms set.Nonce = .ok sigs ∧ sigs ≠ [] ∧
      (findLatestConfirmed (scenario 3 (blockT + 2 * hour)) [valset5, valset4]).2 =
        .ok (some (set, sigs)) ∧
      (RelayValsets (scenario 3 (blockT + 2 * hour))).trace.filterMap Event.confirmFetch =
        (pre ++ [set]).map Valset.Nonce ∧
      (∀ sub ∈ (RelayValsets (scenario 3 (blockT + 2 * hour))).submissions,
        sub.2 = (set, sigs)) :=
  scan_stops_at_first_confirmed (scenario 3 (blockT + 2 * hour)) [valset5, valset4] rfl
    (fun v hv => by
      rcases List.mem_cons.mp hv with rfl | hv
      · exact ⟨[], rfl⟩
      · rcases List.mem_cons.mp hv with rfl | hv
        · exact ⟨[confirm4], rfl⟩
        · cases hv)
    ⟨valset4, by decide, [confirm4], rfl, by decide⟩

/-! ## Order of the gates -/

/-- The scan makes confirmation fetches and no other call. -/
theorem findLatestConfirmed_calls (s : peggyRelayer) (vs : List Valset) :
    ∀ e ∈ (findLatestConfirmed s vs).1, ∃ n, e.call = .AllValsetConfirms n := by
  induction vs with
  | nil =>
    intro e he
    simp [findLatestConfirmed] at he
  | cons hd rest ih =>
    unfold findLatestConfirmed
    split
    · intro e he
      rw [List.mem_singleton] at he
      exact ⟨hd.Nonce, by rw [he]⟩
    · split
      · intro e he
        rcases List.mem_cons.mp he with rfl | he
        · exact ⟨hd.Nonce, rfl⟩
        · exact ih e he
      · intro e he
        rw [List.mem_singleton] at he
        exact ⟨hd.Nonce, by rw [he]⟩

/-- With no confirmed valset the run is the listing and the scan. -/
theorem RelayValsets_of_unconfirmed (s : peggyRelayer) (vs : List Valset)
    (hList : s.LatestValsets = .ok vs) (hScan : (findLatestConfirmed s vs).2 = .ok none) :
    RelayValsets s = ⟨⟨.LatestValsets, false⟩ :: (findLatestConfirmed s vs).1, none⟩ := by
  unfold RelayValsets
  simp only [hList, hScan]

/-- The second nonce gate closed: the confirmed nonce is not above the 64-bit
value of the live nonce, and lines 52-107 end after the two target reads. -/
theorem relayConfirmed_of_raced (s : peggyRelayer) (latest cur : Valset)
    (sigs : List MsgValsetConfirm) (live : Nat) (hCur : s.FindLatestValset = .ok cur)
    (hLive : s.GetValsetNonce = .ok live) (hNonce : latest.Nonce > cur.Nonce)
    (hRaced : latest.Nonce ≤ Uint64 live) :
    relayConfirmed s latest sigs =
      ⟨[⟨.FindLatestValset, false⟩, ⟨.GetValsetNonce, false⟩], none⟩ := by
  have hgate : ¬ (latest.Nonce > Uint64 live) := not_lt.mpr hRaced
  unfold relayConfirmed
  simp only [hCur, hLive, hNonce, hgate, if_true, if_false]

/-- The gates in the order of the code, each ending the invocation with `nil`
before any later collaborator is called: with nothing confirmed the run is the
listing and the scan; with the confirmed nonce not above the target valset's
nonce it ends after `FindLatestValset`; with the confirmed nonce not above the
64-bit value of the live nonce it ends after `GetValsetNonce`.  The block
client, the parser, the clock and the submission do not occur in these runs, so
nothing they would answer changes the outcome. -/
theorem gates_terminal (s : peggyRelayer) (vs : List Valset)
    (hList : s.LatestValsets = .ok vs) :
    ((findLatestConfirmed s vs).2 = .ok none →
        RelayValsets s = ⟨⟨.LatestValsets, false⟩ :: (findLatestConfirmed s vs).1, none⟩) ∧
      (∀ latest sigs cur, (findLatestConfirmed s vs).2 = .ok (some (latest, sigs)) →
        s.FindLatestValset = .ok cur → latest.Nonce ≤ cur.Nonce →
        RelayValsets s =
          ⟨⟨.LatestValsets, false⟩ :: (findLatestConfirmed s vs).1 ++
            [⟨.FindLatestValset, false⟩], none⟩) ∧
      (∀ latest sigs cur live, (findLatestConfirmed s vs).2 = .ok (some (latest, sigs)) →
        s.FindLatestValset = .ok cur → latest.Nonce > cur.Nonce →
        s.GetValsetNonce = .ok live → latest.Nonce ≤ Uint64 live →
        RelayValsets s =
          ⟨⟨.LatestValsets, false⟩ :: (findLatestConfirmed s vs).1 ++
            [⟨.FindLatestValset, false⟩, ⟨.GetValsetNonce, false⟩], none⟩) := by
  refine ⟨RelayValsets_of_unconfirmed s vs hList, ?_, ?_⟩
  · intro latest sigs cur hScan hCur hLe
    rw [RelayValsets_of_confirmed s vs latest sigs hList hScan,
      relayConfirmed_of_not_newer s latest cur sigs hCur hLe]
  · intro latest sigs cur live hScan hCur hNonce hLive hRaced
    rw [RelayValsets_of_confirmed s vs latest sigs hList hScan,
      relayConfirmed_of_raced s latest cur sigs live hCur hLive hNonce hRaced]

/-- The three terminal gates on the scenarios of the design document: nothing
confirmed, target already at nonce 4, live nonce already at 4. -/
theorem gates_terminal_witness :
    (RelayValsets unconfirmedScenario).trace =
        [⟨.LatestValsets, false⟩, ⟨.AllValsetConfirms 5, false⟩,
          ⟨.AllValsetConfirms 4, false⟩] ∧
      (RelayValsets (scenarioWith valset4 3 "1h" (blockT + 2 * hour))).trace =
        [⟨.LatestValsets, false⟩, ⟨.AllValsetConfirms 5, false⟩,
          ⟨.AllValsetConfirms 4, false⟩, ⟨.FindLatestValset, false⟩] ∧
      (RelayValsets (scenario 4 (blockT + 2 * hour))).trace =
        [⟨.LatestValsets, false⟩, ⟨.AllValsetConfirms 5, false⟩,
          ⟨.AllValsetConfirms 4, false⟩, ⟨.FindLatestValset, false⟩,
          ⟨.GetValsetNonce, false⟩] :=
  ⟨congrArg Run.trace ((gates_terminal unconfirmedScenario [valset5, valset4] rfl).1 rfl),
    congrArg Run.trace ((gates_terminal (scenarioWith valset4 3 "1h" (blockT + 2 * hour))
      [valset5, valset4] rfl).2.1 valset4 [confirm4] valset4 rfl rfl (by decide)),
    congrArg Run.trace ((gates_terminal (scenario 4 (blockT + 2 * hour))
      [valset5, valset4] rfl).2.2 valset4 [confirm4] valset3 4 rfl rfl (by decide) rfl
      (by decide))⟩

/-- C14 at a live nonce that does not fit 64 bits: the contract reports
`2 ^ 64 + 3`, which is at least the confirmed nonce 4, so the invocation should
end with `nil` before the block is fetched; line 70 compares with the low 64
bits, 3, the block is fetched, and the failing block client turns the no-op into
an error. -/
theorem raced_gate_not_terminal_beyond_uint64 :
    racedBlockFailScenario.GetValsetNonce = .ok (2 ^ 64 + 3) ∧
      valset4.Nonce ≤ 2 ^ 64 + 3 ∧
      (findLatestConfirmed racedBlockFailScenario [valset5, valset4]).2 =
        .ok (some (valset4, [confirm4])) ∧
      (RelayValsets racedBlockFailScenario).trace.getLast? =
        some ⟨.GetBlock 100, true⟩ ∧
      (RelayValsets racedBlockFailScenario).err =
        some (.base "rpc error: connection refused") :=
  ⟨rfl, by decide, rfl, by decide, by decide⟩

/-! ## The height of the block read -/

/-- A height below `2 ^ 63` is unchanged by the conversion to `int64`. -/
theorem int64_of_lt (x : Nat) (h : x < 2 ^ 63) : int64 x = (x : Int) := by
  have h64 : x % 2 ^ 64 = x := Nat.mod_eq_of_lt (lt_trans h (by norm_num))
  unfold int64
  rw [h64]
  simp only [h, if_true]

/-- A height from `2 ^ 63` up to `2 ^ 64` comes out of the conversion negative,
`2 ^ 64` below the height. -/
theorem int64_of_ge (x : Nat) (hlo : 2 ^ 63 ≤ x) (hhi : x < 2 ^ 64) :
    int64 x = (x : Int) - 2 ^ 64 := by
  have h64 : x % 2 ^ 64 = x := Nat.mod_eq_of_lt hhi
  have hnot : ¬ x < 2 ^ 63 := not_lt.mpr hlo
  unfold int64
  rw [h64]
  simp only [hnot, if_false]

/-- The delay gate and submission stage queries one block, at `int64(Height)` of
the confirmed valset. -/
theorem delayGateAndSend_blockFetch (s : peggyRelayer) (cur latest : Valset)
    (sigs : List MsgValsetConfirm) :
    (delayGateAndSend s cur latest sigs).trace.filterMap Event.blockFetch =
      [int64 latest.Height] := by
  unfold delayGateAndSend
  repeat' split
  all_goals simp [Event.blockFetch]

/-- The scan queries no block. -/
theorem findLatestConfirmed_blockFetch (s : peggyRelayer) (vs : List Valset) :
    (findLatestConfirmed s vs).1.filterMap Event.blockFetch = [] := by
  rw [List.filterMap_eq_nil_iff]
  intro e he
  obtain ⟨n, hn⟩ := findLatestConfirmed_calls s vs e he
  simp [Event.blockFetch, hn]

/-- For heights below `2 ^ 63`: an invocation that passes both nonce comparisons
queries exactly one block, the one at the confirmed valset's height. -/
theorem block_read_at_height_of_small (s : peggyRelayer) (vs : List Valset)
    (latest cur : Valset) (sigs : List MsgValsetConfirm) (live : Nat)
    (hList : s.LatestValsets = .ok vs)
    (hScan : (findLatestConfirmed s vs).2 = .ok (some (latest, sigs)))
    (hCur : s.FindLatestValset = .ok cur)
    (hLive : s.GetValsetNonce = .ok live)
    (hNonce : latest.Nonce > cur.Nonce) (hGate : latest.Nonce > Uint64 live)
    (hSmall : latest.Height < 2 ^ 63) :
    (RelayValsets s).trace.filterMap Event.blockFetch = [(latest.Height : Int)] := by
  rw [RelayValsets_of_confirmed s vs latest sigs hList hScan,
    relayConfirmed_of_newer s latest cur sigs live hCur hLive hNonce hGate]
  simp [List.filterMap_append, findLatestConfirmed_blockFetch, Event.blockFetch,
    delayGateAndSend_blockFetch, int64_of_lt latest.Height hSmall]

/-- The block read of the design document's scenario is at height 100. -/
theorem block_read_at_height_of_small_witness :
    (RelayValsets (scenario 3 (blockT + 2 * hour))).trace.filterMap Event.blockFetch = [100] :=
  block_read_at_height_of_small (scenario 3 (blockT + 2 * hour)) [valset5, valset4] valset4
    valset3 [confirm4] 3 rfl rfl rfl rfl (by decide) (by decide) (by decide)

/-- C15 at the height `2 ^ 63`: the confirmed valset carries the height
9223372036854775808, at which the block client would answer with a timestamp;
`int64` turns it into -9223372036854775808, the only block query of the run is
at that negative height, and the run ends with the client's error for it. -/
theorem block_height_wraps_at_two_pow_63 :
    valsetHigh.Height = 9223372036854775808 ∧
      highHeightScenario.GetBlock 9223372036854775808 = .ok blockT ∧
      int64 valsetHigh.Height = -9223372036854775808 ∧
      (RelayValsets highHeightScenario).trace.filterMap Event.blockFetch =
        [-9223372036854775808] ∧
      (RelayValsets highHeightScenario).err = some (.base "height must be greater than 0") ∧
      (RelayValsets highHeightScenario).submissions = [] :=
  ⟨by decide, rfl, by decide, by decide, by decide, by decide⟩

/-! ## Position of a failing fetch, and the clock -/

/-- Lines 52-107 do not fetch confirmations: replacing the fetch leaves them as
they are. -/
theorem relayConfirmed_congr_confirms (s : peggyRelayer)
    (f : Nat → Except Error (List MsgValsetConfirm)) (latest : Valset)
    (sigs : List MsgValsetConfirm) :
    relayConfirmed { s with AllValsetConfirms := f } latest sigs = relayConfirmed s latest sigs :=
  rfl

/-- A fetch that agrees with the receiver's on the valsets up to and including
the first confirmed one gives the same scan. -/
theorem findLatestConfirmed_agree (s : peggyRelayer)
    (f : Nat → Except Error (List MsgValsetConfirm)) (pre post : List Valset) (v : Valset)
    (sigs : List MsgValsetConfirm)
    (hpre : ∀ u ∈ pre, s.AllValsetConfirms u.Nonce = .ok [])
    (hv : s.AllValsetConfirms v.Nonce = .ok sigs) (hne : sigs ≠ [])
    (hAgree : ∀ u ∈ pre ++ [v], f u.Nonce = s.AllValsetConfirms u.Nonce) :
    findLatestConfirmed { s with AllValsetConfirms := f } (pre ++ v :: post) =
      findLatestConfirmed s (pre ++ v :: post) := by
  have hpre2 : ∀ u ∈ pre,
      ({ s with AllValsetConfirms := f } : peggyRelayer).AllValsetConfirms u.Nonce = .ok [] :=
    fun u hu => (hAgree u (List.mem_append_left _ hu)).trans (hpre u hu)
  have hv2 : ({ s with AllValsetConfirms := f } : peggyRelayer).AllValsetConfirms v.Nonce =
      .ok sigs :=
    (hAgree v (List.mem_append_right _ (List.mem_singleton_self v))).trans hv
  apply Prod.ext
  · rw [findLatestConfirmed_trace s pre post v sigs hpre hv hne,
      findLatestConfirmed_trace _ pre post v sigs hpre2 hv2 hne]
  · rw [(findLatestConfirmed_some_iff s _ v sigs).mpr ⟨pre, post, rfl, hpre, hv, hne⟩,
      (findLatestConfirmed_some_iff _ _ v sigs).mpr ⟨pre, post, rfl, hpre2, hv2, hne⟩]

/-- C16: let `v` be a listed valset with every valset before it fetched
successfully and without confirmations.  If the fetch for `v` fails, the method
returns that error annotated with the nonce of `v` and submits nothing, whatever
follows `v` in the list.  If `v` has confirmations (it is the first confirmed
valset), the run is the same under any other confirmation fetch that answers
alike for the valsets up to and including `v`: what the fetch would answer, or
fail with, for the valsets after `v` has no effect. -/
theorem confirm_fetch_failure_position (s : peggyRelayer) (pre post : List Valset)
    (v : Valset) (hList : s.LatestValsets = .ok (pre ++ v :: post))
    (hpre : ∀ u ∈ pre, s.AllValsetConfirms u.Nonce = .ok []) :
    (∀ e, s.AllValsetConfirms v.Nonce = .error e →
        (RelayValsets s).err =
            some (.Wrapf e "failed to get valset confirms at nonce %d" v.Nonce) ∧
          (RelayValsets s).submissions = []) ∧
      (∀ sigs f, s.AllValsetConfirms v.Nonce = .ok sigs → sigs ≠ [] →
        (∀ u ∈ pre ++ [v], f u.Nonce = s.AllValsetConfirms u.Nonce) →
        RelayValsets { s with AllValsetConfirms := f } = RelayValsets s) := by
  constructor
  · intro e hFail
    exact confirms_error_wrapped s pre post v e hList hpre hFail
  · intro sigs f hv hne hAgree
    have hScan : (findLatestConfirmed s (pre ++ v :: post)).2 = .ok (some (v, sigs)) :=
      (findLatestConfirmed_some_iff s _ v sigs).mpr ⟨pre, post, rfl, hpre, hv, hne⟩
    have hSame := findLatestConfirmed_agree s f pre post v sigs hpre hv hne hAgree
    have hScan2 : (findLatestConfirmed { s with AllValsetConfirms := f }
        (pre ++ v :: post)).2 = .ok (some (v, sigs)) := by
      rw [hSame]
      exact hScan
    rw [RelayValsets_of_confirmed s _ v sigs hList hScan,
      RelayValsets_of_confirmed { s with AllValsetConfirms := f } _ v sigs hList hScan2,
      hSame, relayConfirmed_congr_confirms]

/-- C16 on two lists: with the fetch for nonce 5 failing ahead of the confirmed
valset 4, the error carries nonce 5 and nothing is submitted; with valset 4
listed and confirmed first, a fetch that fails for every other nonce, valset 5
behind it included, gives the same run. -/
theorem confirm_fetch_failure_position_witness :
    ((RelayValsets confirmFailScenario).err =
          some (.Wrapf (.base "rpc timeout") "failed to get valset confirms at nonce %d" 5) ∧
        (RelayValsets confirmFailScenario).submissions = []) ∧
      RelayValsets { unsortedScenario with AllValsetConfirms := failExceptFour } =
        RelayValsets unsortedScenario :=
  ⟨(confirm_fetch_failure_position confirmFailScenario [] [valset4] valset5 rfl
      (fun _ hu => by cases hu)).1 (.base "rpc timeout") rfl,
    (confirm_fetch_failure_position unsortedScenario [] [valset5] valset4 rfl
      (fun _ hu => by cases hu)).2 [confirm4] failExceptFour rfl (by decide)
      (fun u hu => by
        rw [List.nil_append, List.mem_singleton] at hu
        rw [hu]
        rfl)⟩

/-- C17: with every collaborator answer and the offset fixed, a submission made
at the clock reading of `s` is made again, with the same arguments and the same
returned error, at any clock reading `later` that is not earlier. -/
theorem relay_monotone_in_clock (s : peggyRelayer) (later : Time) (cur latest : Valset)
    (sigs : List MsgValsetConfirm) (hLater : s.Now ≤ later)
    (hSub : (RelayValsets s).submissions = [(cur, latest, sigs)]) :
    (RelayValsets { s with Now := later }).submissions = [(cur, latest, sigs)] ∧
      (RelayValsets { s with Now := later }).err = (RelayValsets s).err := by
  obtain ⟨vs, live, createdAt, offset, hList, hScan, hCur, hNonce, hLive, hGate, hBlock, hParse,
    hClock⟩ := (RelayValsets_submits_iff s cur latest sigs).mp hSub
  have hScan2 : (findLatestConfirmed { s with Now := later } vs).2 =
      .ok (some (latest, sigs)) := by
    rw [findLatestConfirmed_congr s { s with Now := later } rfl vs]
    exact hScan
  have hClock2 : createdAt + offset < ({ s with Now := later } : peggyRelayer).Now :=
    lt_of_lt_of_le hClock hLater
  have hOpen := delayGateAndSend_open s cur latest sigs createdAt offset hBlock hParse hClock
  have hOpen2 := delayGateAndSend_open { s with Now := later } cur latest sigs createdAt offset
    hBlock hParse hClock2
  have hRun := RelayValsets_of_confirmed s vs latest sigs hList hScan
  have hRun2 := RelayValsets_of_confirmed { s with Now := later } vs latest sigs hList hScan2
  have hRelay := relayConfirmed_of_newer s latest cur sigs live hCur hLive hNonce hGate
  have hRelay2 := relayConfirmed_of_newer { s with Now := later } latest cur sigs live hCur
    hLive hNonce hGate
  constructor
  · exact (RelayValsets_submits_iff { s with Now := later } cur latest sigs).mpr
      ⟨vs, live, createdAt, offset, hList, hScan2, hCur, hNonce, hLive, hGate, hBlock, hParse,
        hClock2⟩
  · rw [hRun, hRun2, hRelay, hRelay2]
    cases hSend : s.SendEthValsetUpdate cur latest sigs with
    | error e => exact (hOpen2.2.2 e hSend).trans (hOpen.2.2 e hSend).symm
    | ok tx => exact (hOpen2.2.1 tx hSend).trans (hOpen.2.1 tx hSend).symm

/-- C17 on the scenario of the design document: submitted two hours after
block 100, submitted again a further hour later. -/
theorem relay_monotone_in_clock_witness :
    (RelayValsets { scenario 3 (blockT + 2 * hour) with Now := blockT + 3 * hour }).submissions =
        [(valset3, valset4, [confirm4])] ∧
      (RelayValsets { scenario 3 (blockT + 2 * hour) with Now := blockT + 3 * hour }).err =
        (RelayValsets (scenario 3 (blockT + 2 * hour))).err :=
  relay_monotone_in_clock (scenario 3 (blockT + 2 * hour)) (blockT + 3 * hour) valset3 valset4
    [confirm4] (by decide) (by decide)

/-! ## An offset that does not parse -/

/-- A failed scan ends the run with the scan's error. -/
theorem RelayValsets_of_scan_error (s : peggyRelayer) (vs : List Valset) (e : Error)
    (hList : s.LatestValsets = .ok vs) (hScan : (findLatestConfirmed s vs).2 = .error e) :
    RelayValsets s = ⟨⟨.LatestValsets, false⟩ :: (findLatestConfirmed s vs).1, some e⟩ := by
  unfold RelayValsets
  simp only [hList, hScan]

/-- A failed read of the target valset ends lines 52-107 there. -/
theorem relayConfirmed_of_target_error (s : peggyRelayer) (latest : Valset)
    (sigs : List MsgValsetConfirm) (e : Error) (hCur : s.FindLatestValset = .error e) :
    relayConfirmed s latest sigs =
      ⟨[⟨.FindLatestValset, true⟩],
        some (.Wrap e "couldn't find latest confirmed valset on Ethereum")⟩ := by
  unfold relayConfirmed
  simp only [hCur]

/-- A failed read of the live nonce ends lines 52-107 there. -/
theorem relayConfirmed_of_live_error (s : peggyRelayer) (latest cur : Valset)
    (sigs : List MsgValsetConfirm) (e : Error) (hCur : s.FindLatestValset = .ok cur)
    (hNonce : latest.Nonce > cur.Nonce) (hLive : s.GetValsetNonce = .error e) :
    relayConfirmed s latest sigs =
      ⟨[⟨.FindLatestValset, false⟩, ⟨.GetValsetNonce, true⟩],
        some (.Wrap e "failed to get latest Valset nonce")⟩ := by
  unfold relayConfirmed
  simp only [hCur, hLive, hNonce, if_true]

/-- A failed block read ends the delay gate stage there. -/
theorem delayGateAndSend_of_block_error (s : peggyRelayer) (cur latest : Valset)
    (sigs : List MsgValsetConfirm) (e : Error)
    (hBlock : s.GetBlock (int64 latest.Height) = .error e) :
    delayGateAndSend s cur latest sigs =
      ⟨[⟨.GetBlock (int64 latest.Height), true⟩], some e⟩ := by
  unfold delayGateAndSend
  simp only [hBlock]

/-- Lines 52-107 when the offset parse is not reached: they are the same for a
second receiver with the same target reads and block client, whatever its stored
offset, parser, clock and submission, and their log holds no parse. -/
theorem relayConfirmed_short (s s2 : peggyRelayer) (latest : Valset)
    (sigs : List MsgValsetConfirm)
    (hF : s2.FindLatestValset = s.FindLatestValset)
    (hG : s2.GetValsetNonce = s.GetValsetNonce) (hB : s2.GetBlock = s.GetBlock)
    (hShort : ¬ ∃ cur live createdAt, s.FindLatestValset = .ok cur ∧
      latest.Nonce > cur.Nonce ∧ s.GetValsetNonce = .ok live ∧ latest.Nonce > Uint64 live ∧
      s.GetBlock (int64 latest.Height) = .ok createdAt) :
    relayConfirmed s2 latest sigs = relayConfirmed s latest sigs ∧
      (∀ str b, ⟨.ParseDuration str, b⟩ ∉ (relayConfirmed s latest sigs).trace) := by
  cases hCur : s.FindLatestValset with
  | error e =>
    have hCur2 : s2.FindLatestValset = .error e := hF.trans hCur
    constructor
    · rw [relayConfirmed_of_target_error s latest sigs e hCur,
        relayConfirmed_of_target_error s2 latest sigs e hCur2]
    · intro str b
      rw [relayConfirmed_of_target_error s latest sigs e hCur]
      simp
  | ok cur =>
    have hCur2 : s2.FindLatestValset = .ok cur := hF.trans hCur
    by_cases hNonce : latest.Nonce > cur.Nonce
    · cases hLive : s.GetValsetNonce with
      | error e =>
        have hLive2 : s2.GetValsetNonce = .error e := hG.trans hLive
        constructor
        · rw [relayConfirmed_of_live_error s latest cur sigs e hCur hNonce hLive,
            relayConfirmed_of_live_error s2 latest cur sigs e hCur2 hNonce hLive2]
        · intro str b
          rw [relayConfirmed_of_live_error s latest cur sigs e hCur hNonce hLive]
          simp
      | ok live =>
        have hLive2 : s2.GetValsetNonce = .ok live := hG.trans hLive
        by_cases hGate : latest.Nonce > Uint64 live
        · cases hBlock : s.GetBlock (int64 latest.Height) with
          | error e =>
            have hBlock2 : s2.GetBlock (int64 latest.Height) = .error e := by
              rw [hB, hBlock]
            constructor
            · rw [relayConfirmed_of_newer s latest cur sigs live hCur hLive hNonce hGate,
                relayConfirmed_of_newer s2 latest cur sigs live hCur2 hLive2 hNonce hGate,
                delayGateAndSend_of_block_error s cur latest sigs e hBlock,
                delayGateAndSend_of_block_error s2 cur latest sigs e hBlock2]
            · intro str b
              rw [relayConfirmed_of_newer s latest cur sigs live hCur hLive hNonce hGate,
                delayGateAndSend_of_block_error s cur latest sigs e hBlock]
              simp
          | ok createdAt =>
            exact absurd ⟨cur, live, createdAt, hCur, hNonce, hLive, hGate, hBlock⟩ hShort
        · constructor
          · rw [relayConfirmed_of_raced s latest cur sigs live hCur hLive hNonce
                (not_lt.mp hGate),
              relayConfirmed_of_raced s2 latest cur sigs live hCur2 hLive2 hNonce
                (not_lt.mp hGate)]
          · intro str b
            rw [relayConfirmed_of_raced s latest cur sigs live hCur hLive hNonce
              (not_lt.mp hGate)]
            simp
    · constructor
      · rw [relayConfirmed_of_not_newer s latest cur sigs hCur (not_lt.mp hNonce),
          relayConfirmed_of_not_newer s2 latest cur sigs hCur2 (not_lt.mp hNonce)]
      · intro str b
        rw [relayConfirmed_of_not_newer s latest cur sigs hCur (not_lt.mp hNonce)]
        simp

/-- The scan's log holds no parse. -/
theorem findLatestConfirmed_no_parse (s : peggyRelayer) (vs : List Valset) (str : String)
    (b : Bool) : ⟨.ParseDuration str, b⟩ ∉ (findLatestConfirmed s vs).1 := by
  intro hmem
  obtain ⟨n, hn⟩ := findLatestConfirmed_calls s vs _ hmem
  cases hn

/-- A run that does not reach the offset parse is the same for a second receiver
with the same source-chain, target-chain and block answers, whatever its stored
offset, parser, clock and submission, and its log holds no parse. -/
theorem RelayValsets_short (s s2 : peggyRelayer)
    (hL : s2.LatestValsets = s.LatestValsets)
    (hA : s2.AllValsetConfirms = s.AllValsetConfirms)
    (hF : s2.FindLatestValset = s.FindLatestValset)
    (hG : s2.GetValsetNonce = s.GetValsetNonce) (hB : s2.GetBlock = s.GetBlock)
    (hShort : ¬ ReachesParse s) :
    RelayValsets s2 = RelayValsets s ∧
      (∀ str b, ⟨.ParseDuration str, b⟩ ∉ (RelayValsets s).trace) := by
  cases hList : s.LatestValsets with
  | error e =>
    have hList2 : s2.LatestValsets = .error e := hL.trans hList
    constructor
    · rw [listing_error_wrapped s e hList, listing_error_wrapped s2 e hList2]
    · intro str b
      rw [listing_error_wrapped s e hList]
      simp
  | ok vs =>
    have hList2 : s2.LatestValsets = .ok vs := hL.trans hList
    have hSame : findLatestConfirmed s2 vs = findLatestConfirmed s vs :=
      findLatestConfirmed_congr s s2 hA vs
    cases hScan : (findLatestConfirmed s vs).2 with
    | error e =>
      have hScan2 : (findLatestConfirmed s2 vs).2 = .error e := by rw [hSame, hScan]
      constructor
      · rw [RelayValsets_of_scan_error s vs e hList hScan,
          RelayValsets_of_scan_error s2 vs e hList2 hScan2, hSame]
      · intro str b
        rw [RelayValsets_of_scan_error s vs e hList hScan]
        simp [findLatestConfirmed_no_parse]
    | ok found =>
      cases found with
      | none =>
        have hScan2 : (findLatestConfirmed s2 vs).2 = .ok none := by rw [hSame, hScan]
        constructor
        · rw [RelayValsets_of_unconfirmed s vs hList hScan,
            RelayValsets_of_unconfirmed s2 vs hList2 hScan2, hSame]
        · intro str b
          rw [RelayValsets_of_unconfirmed s vs hList hScan]
          simp [findLatestConfirmed_no_parse]
      | some pair =>
        obtain ⟨latest, sigs⟩ := pair
        have hScan2 : (findLatestConfirmed s2 vs).2 = .ok (some (latest, sigs)) := by
          rw [hSame, hScan]
        have hStage := relayConfirmed_short s s2 latest sigs hF hG hB (by
          rintro ⟨cur, live, createdAt, hCur, hNonce, hLive, hGate, hBlock⟩
          exact hShort ⟨vs, latest, sigs, cur, live, createdAt, hList, hScan, hCur, hNonce,
            hLive, hGate, hBlock⟩)
        constructor
        · rw [RelayValsets_of_confirmed s vs latest sigs hList hScan,
            RelayValsets_of_confirmed s2 vs latest sigs hList2 hScan2, hSame, hStage.1]
        · intro str b
          rw [RelayValsets_of_confirmed s vs latest sigs hList hScan]
          simp [findLatestConfirmed_no_parse, hStage.2 str b]

/-- With a stored offset that does not parse: nothing is submitted; the failed
parse is in the log exactly when the invocation reaches the parse, and then its
error is what the method returns; an invocation that does not reach the parse
runs as it would under any other stored offset and parser, a well-formed one
included; a failing block read is returned in place of the parse error.  The
comparison with the live nonce is the one of line 70, against its low 64
bits. -/
theorem unparseable_offset_outcome (s : peggyRelayer) (e : Error)
    (hParse : s.ParseDuration s.relayValsetOffsetDur = .error e) :
    (RelayValsets s).submissions = [] ∧
      (⟨.ParseDuration s.relayValsetOffsetDur, true⟩ ∈ (RelayValsets s).trace ↔
        ReachesParse s) ∧
      (ReachesParse s → (RelayValsets s).err = some e) ∧
      (¬ ReachesParse s → ∀ str p,
        RelayValsets { s with relayValsetOffsetDur := str, ParseDuration := p } =
          RelayValsets s) := by
  have hReach : ReachesParse s → (RelayValsets s).err = some e ∧
      ⟨.ParseDuration s.relayValsetOffsetDur, true⟩ ∈ (RelayValsets s).trace := by
    rintro ⟨vs, latest, sigs, cur, live, createdAt, hList, hScan, hCur, hNonce, hLive, hGate,
      hBlock⟩
    rw [RelayValsets_of_confirmed s vs latest sigs hList hScan,
      relayConfirmed_of_newer s latest cur sigs live hCur hLive hNonce hGate,
      delayGateAndSend_parse_error s cur latest sigs createdAt e hBlock hParse]
    exact ⟨rfl, by simp⟩
  refine ⟨?_, ⟨?_, fun h => (hReach h).2⟩, fun h => (hReach h).1,
    fun h str p => (RelayValsets_short s
      { s with relayValsetOffsetDur := str, ParseDuration := p } rfl rfl rfl rfl rfl h).1⟩
  · rcases RelayValsets_submissions s with h0 | ⟨vs, cur, latest, sigs, -, -, -, h1⟩
    · exact h0
    · obtain ⟨_, _, _, offset, -, -, -, -, -, -, -, hOk, -⟩ :=
        (RelayValsets_submits_iff s cur latest sigs).mp h1
      rw [hParse] at hOk
      cases hOk
  · intro hmem
    by_contra hShort
    exact (RelayValsets_short s s rfl rfl rfl rfl rfl hShort).2 _ _ hmem

/-- The outcome with the stored offset `abc` on the scenario of the design
document: the parse is reached and its error returned. -/
theorem unparseable_offset_outcome_witness :
    (RelayValsets malformedOffsetScenario).submissions = [] ∧
      (RelayValsets malformedOffsetScenario).err = some (.base "time: invalid duration") :=
  have h := unparseable_offset_outcome malformedOffsetScenario (.base "time: invalid duration")
    rfl
  ⟨h.1, h.2.2.1 ⟨[valset5, valset4], valset4, [confirm4], valset3, 3, blockT, rfl, rfl, rfl,
    by decide, rfl, by decide, rfl⟩⟩

/-- C18 at a live nonce that does not fit 64 bits: the stored offset `abc` does
not parse and the contract reports `2 ^ 64 + 3`, so the confirmed nonce 4 is not
above the live nonce and the parse error should not be returned; line 70
compares with the low 64 bits, 3, the parse is reached, and its error is what
the method returns. -/
theorem parse_error_returned_beyond_uint64 :
    racedMalformedScenario.ParseDuration racedMalformedScenario.relayValsetOffsetDur =
        .error (.base "time: invalid duration") ∧
      racedMalformedScenario.GetValsetNonce = .ok (2 ^ 64 + 3) ∧
      ¬ (valset4.Nonce > 2 ^ 64 + 3) ∧
      (findLatestConfirmed racedMalformedScenario [valset5, valset4]).2 =
        .ok (some (valset4, [confirm4])) ∧
      (RelayValsets racedMalformedScenario).trace.getLast? =
        some ⟨.ParseDuration "abc", true⟩ ∧
      (RelayValsets racedMalformedScenario).err = some (.base "time: invalid duration") :=
  ⟨rfl, rfl, by decide, rfl, by decide, by decide⟩

end Peggo
